import Mathlib

/-!
Shallow embedding of the NINJA SUPREME 2.0 cosmology engine
(`src/ninja_supreme_2.py`) over the real numbers.

The embedding mirrors, definition by definition:
  * `NinjaDataVectorized.__init__`: the speed-of-light constant `c` and the
    redshift grid `np.logspace(-3, np.log10(5), 1000)`;
  * `BaseModel.__init__`: the dark-energy equation of state `w(a)`, the
    density factor `rho_DE(a)`, the Hubble-rate grid, the cumulative-trapezoid
    comoving-distance table, and the three interpolators
    (`PchipInterpolator` for `Dc` and `DL`, linear `interp1d` with
    `bounds_error=False, fill_value="extrapolate"` for `H`);
  * the observable transforms `H`, `Dc`, `DL`, `mu`, `DV`, `DA_Gpc` and the
    two `fs8_model` methods of `LCDM_Vectorized` / `DUT_Vectorized`.

Floating-point arithmetic is modelled by exact real arithmetic.  The
float-special values that the claims depend on are modelled explicitly:
`numpy.log10` of a non-positive number (which yields `-inf` / `nan` rather
than a real) is modelled by the sum type `FVal`, and the only exception the
constructor can raise (scipy's `ValueError: y must contain only finite
values`, triggered inside `PchipInterpolator` when the distance table
contains `inf`/`nan`) is modelled by the `Except`-valued `construct`.
-/

noncomputable section

open scoped Classical

namespace Ninja

/-! ### The redshift grid (`NinjaDataVectorized.__init__`) -/

/-- Speed of light in km/s: `self.c = 299792.458`. -/
def c : ℝ := 299792.458

/-- Number of grid points: `N_Z_GRID_POINTS = 1000`. -/
def nGrid : ℕ := 1000

/-- Exponent step of `np.logspace(-3, np.log10(5), 1000)`: the 1000 exponents
are linearly spaced from `-3` to `log10 5`, so the step is
`(log10 5 - (-3)) / 999`. -/
def expStep : ℝ := (Real.logb 10 5 + 3) / 999

/-- Grid point `i` of `self.z_grid = np.logspace(-3, np.log10(5), 1000)`:
`z_i = 10 ^ (-3 + i * expStep)`. -/
def zGrid (i : ℕ) : ℝ := (10 : ℝ) ^ ((-3 : ℝ) + i * expStep)

/-- Scale-factor grid `self.a_grid = 1 / (1 + self.z_grid)`. -/
def aGrid (i : ℕ) : ℝ := 1 / (1 + zGrid i)

/-- Common ratio of the geometric redshift grid: `g = 10 ^ expStep`. -/
def gRatio : ℝ := (10 : ℝ) ^ expStep

/-! ### The expansion-history engine (`BaseModel.__init__`) -/

/-- Scalar parameters of `BaseModel.__init__(self, H0, Om, data, w0=-1.0,
wa=0.0, xi=0.0)`.  (`s8` is stored by the subclasses and only used by
`fs8_model`, so it is passed separately to the growth-rate functions.) -/
structure Params where
  H0 : ℝ
  Om : ℝ
  w0 : ℝ
  wa : ℝ
  xi : ℝ

/-- Parameters produced by `LCDM_Vectorized.__init__`, which calls
`super().__init__(H0, Om, data)` leaving the defaults `w0=-1, wa=0, xi=0`. -/
def lcdmParams (H0 Om : ℝ) : Params := ⟨H0, Om, -1, 0, 0⟩

/-- Parameters produced by `DUT_Vectorized.__init__`, which passes
`w0, wa, xi` through to `BaseModel.__init__`. -/
def dutParams (H0 Om w0 wa xi : ℝ) : Params := ⟨H0, Om, w0, wa, xi⟩

/-- Dark-energy equation of state on the grid:
`w_de_grid = self.w0 + self.wa*(1-a_grid)`. -/
def wDE (p : Params) (a : ℝ) : ℝ := p.w0 + p.wa * (1 - a)

/-- Dark-energy density factor:
`rho_de_grid = a_grid**(-3*(1+w_de_grid+self.xi))` (real power). -/
def rhoDE (p : Params) (a : ℝ) : ℝ := a ^ (-3 * (1 + wDE p a + p.xi))

/-- Radicand of the Hubble rate:
`self.Om/a_grid**3 + (1-self.Om)*rho_de_grid`. -/
def radicand (p : Params) (a : ℝ) : ℝ := p.Om / a ^ (3 : ℕ) + (1 - p.Om) * rhoDE p a

/-- Hubble-rate grid `self.hz_grid = self.H0 * np.sqrt(...)` at node `i`. -/
def hzNode (p : Params) (i : ℕ) : ℝ := p.H0 * Real.sqrt (radicand p (aGrid i))

/-- Comoving-distance table
`d_c_grid = cumulative_trapezoid(1/self.hz_grid, data.z_grid, initial=0)`:
entry `0` is `0` and entry `k+1` adds the trapezoid
`(z_{k+1} - z_k) * (1/hz_k + 1/hz_{k+1}) / 2`. -/
def dcTable (p : Params) : ℕ → ℝ
  | 0 => 0
  | k + 1 =>
      dcTable p k + (zGrid (k + 1) - zGrid k) * (1 / hzNode p k + 1 / hzNode p (k + 1)) / 2

/-- Values interpolated by `self.DL_interp`:
`(1+data.z_grid)*data.c*d_c_grid/1e5`. -/
def dlTable (p : Params) (k : ℕ) : ℝ := (1 + zGrid k) * c * dcTable p k / 100000

/-! ### Interval location

Both scipy piecewise evaluators (`PPoly.__call__`, used by the two
`PchipInterpolator`s, and `interp1d._call_linear`) locate, for an input `z`,
the polynomial piece `[z_k, z_{k+1}]` with `z_k ≤ z < z_{k+1}`, clamped to
the first piece for `z` below the grid and to the last piece (index 998) for
`z` at or beyond the last breakpoint.  Both extrapolate with the clamped end
piece: `PchipInterpolator` leaves `extrapolate=None`, which
`CubicHermiteSpline.__init__` turns into `extrapolate=True`, and the `H`
interpolator is built with `bounds_error=False, fill_value="extrapolate"`.
(`interp1d` clamps right-closed instead of left-closed at interior
breakpoints, but both pieces agree at the shared breakpoint, so the evaluated
function is the same.) -/

/-- Largest index `k ≤ n` with `zGrid k ≤ z`, or `0` when there is none. -/
def findIdx (z : ℝ) : ℕ → ℕ
  | 0 => 0
  | k + 1 => if zGrid (k + 1) ≤ z then k + 1 else findIdx z k

/-- Piece index used for evaluation at `z` (999 breakpoints, pieces 0–998). -/
def idx (z : ℝ) : ℕ := findIdx z 998

/-! ### The Hubble-rate interpolator (`interp1d`, linear, extrapolating) -/

/-- Linear interpolation of nodal values `y` on the grid, extrapolating with
the end segments: `self.Hz_interp = interp1d(data.z_grid, self.hz_grid,
bounds_error=False, fill_value="extrapolate")` (default `kind='linear'`). -/
def linInterp (y : ℕ → ℝ) (z : ℝ) : ℝ :=
  y (idx z) + (z - zGrid (idx z)) * (y (idx z + 1) - y (idx z)) / (zGrid (idx z + 1) - zGrid (idx z))

/-- Method `BaseModel.H`: `self.Hz_interp(z)`. -/
def Hfun (p : Params) (z : ℝ) : ℝ := linInterp (hzNode p) z

/-! ### The shape-preserving cubic interpolator (`PchipInterpolator`)

Faithful to `scipy.interpolate._cubic.PchipInterpolator._find_derivatives`
and `_edge_case`, and to the Hermite-cubic piece polynomials built by
`CubicHermiteSpline.__init__` (coefficients `t/dx, (slope-d0)/dx - t, d0, y0`
in the local variable `s = z - z_k`). -/

/-- Real sign, as `np.sign`: `1`, `-1` or `0`. -/
def sgn (x : ℝ) : ℝ := if 0 < x then 1 else if x < 0 then -1 else 0

/-- Grid spacing `hk = x[1:] - x[:-1]`. -/
def hStep (k : ℕ) : ℝ := zGrid (k + 1) - zGrid k

/-- Data slopes `mk = (y[1:] - y[:-1]) / hk`. -/
def mSlope (y : ℕ → ℝ) (k : ℕ) : ℝ := (y (k + 1) - y k) / hStep k

/-- Interior pchip derivative at node `k` (`1 ≤ k ≤ 998`): zero when the
adjacent slopes have different signs or one vanishes
(`condition = (smk[1:] != smk[:-1]) | (mk[1:] == 0) | (mk[:-1] == 0)`),
otherwise the weighted harmonic mean `1/whmean` with weights
`w1 = 2*hk[1:] + hk[:-1]`, `w2 = hk[1:] + 2*hk[:-1]`. -/
def dInterior (y : ℕ → ℝ) (k : ℕ) : ℝ :=
  if sgn (mSlope y k) ≠ sgn (mSlope y (k - 1)) ∨ mSlope y k = 0 ∨ mSlope y (k - 1) = 0 then 0
  else
    (2 * hStep k + hStep (k - 1) + (hStep k + 2 * hStep (k - 1))) /
      ((2 * hStep k + hStep (k - 1)) / mSlope y (k - 1) +
        (hStep k + 2 * hStep (k - 1)) / mSlope y k)

/-- Endpoint pchip derivative (`PchipInterpolator._edge_case`): the one-sided
three-point estimate `d = ((2h0 + h1)m0 - h0 m1)/(h0 + h1)`, set to `0` when
its sign differs from `sign m0`, and clipped to `3 m0` when the two slopes
disagree in sign and `|d| > 3|m0|`. -/
def dEdge (h0 h1 m0 m1 : ℝ) : ℝ :=
  if sgn (((2 * h0 + h1) * m0 - h0 * m1) / (h0 + h1)) ≠ sgn m0 then 0
  else if sgn m0 ≠ sgn m1 ∧ 3 * |m0| < |((2 * h0 + h1) * m0 - h0 * m1) / (h0 + h1)| then 3 * m0
  else ((2 * h0 + h1) * m0 - h0 * m1) / (h0 + h1)

/-- Pchip derivative at node `k` of the 1000-point grid: `_edge_case` at the
two ends (the right end with reversed arguments, `dk[-1] =
_edge_case(hk[-1], hk[-2], mk[-1], mk[-2])`), interior formula elsewhere. -/
def pchipDeriv (y : ℕ → ℝ) (k : ℕ) : ℝ :=
  if k = 0 then dEdge (hStep 0) (hStep 1) (mSlope y 0) (mSlope y 1)
  else if k = 999 then dEdge (hStep 998) (hStep 997) (mSlope y 998) (mSlope y 997)
  else dInterior y k

/-- Hermite cubic on piece `k` in monomial form in `s = z - z_k`: the unique
cubic with values `y_k`, `y_{k+1}` and derivatives `d_k`, `d_{k+1}` at the
ends, as assembled by `CubicHermiteSpline.__init__`. -/
def pieceEval (y : ℕ → ℝ) (k : ℕ) (z : ℝ) : ℝ :=
  y k + pchipDeriv y k * (z - zGrid k) +
    ((3 * mSlope y k - 2 * pchipDeriv y k - pchipDeriv y (k + 1)) / hStep k) * (z - zGrid k) ^ 2 +
    ((pchipDeriv y k + pchipDeriv y (k + 1) - 2 * mSlope y k) / hStep k ^ 2) * (z - zGrid k) ^ 3

/-- Full pchip evaluation: locate the piece (extrapolating with the clamped
end pieces, since `extrapolate=True` by default) and evaluate its cubic. -/
def pchipInterp (y : ℕ → ℝ) (z : ℝ) : ℝ := pieceEval y (idx z) z

/-- Method `BaseModel.Dc`: `self.Dc_interp(z)` with
`self.Dc_interp = interpolate.PchipInterpolator(data.z_grid, d_c_grid)`. -/
def Dc (p : Params) (z : ℝ) : ℝ := pchipInterp (dcTable p) z

/-- Method `BaseModel.DL`: `self.DL_interp(z)` with `self.DL_interp =
interpolate.PchipInterpolator(data.z_grid, (1+data.z_grid)*data.c*d_c_grid/1e5)`. -/
def DL (p : Params) (z : ℝ) : ℝ := pchipInterp (dlTable p) z

/-! ### Derived observables (`mu`, `DV`, `DA_Gpc`, `fs8_model`) -/

/-- Value of a numpy floating-point computation that may produce the
non-real specials `-inf` (from `log10(0)`) or `nan` (from `log10` of a
negative number). -/
inductive FVal where
  | fin (r : ℝ) : FVal
  | neginf : FVal
  | nan : FVal
deriving DecidableEq

/-- Semantics of `np.log10` on floats: a real logarithm for positive input,
`-inf` at zero, `nan` for negative input. -/
def log10F (x : ℝ) : FVal :=
  if 0 < x then FVal.fin (Real.logb 10 x) else if x = 0 then FVal.neginf else FVal.nan

/-- Method `BaseModel.mu`: `5*np.log10(self.DL(z)) + 25`, with the affine map
carrying `-inf` and `nan` through as numpy does. -/
def mu (p : Params) (z : ℝ) : FVal :=
  match log10F (DL p z) with
  | FVal.fin r => FVal.fin (5 * r + 25)
  | FVal.neginf => FVal.neginf
  | FVal.nan => FVal.nan

/-- Method `BaseModel.DV`:
`((1+z)*Dc_z**2 * self.data.c/Hz_z)**(1/3)` with `Dc_z = self.Dc(z)` and
`Hz_z = self.H(z)`. -/
def DV (p : Params) (z : ℝ) : ℝ :=
  ((1 + z) * Dc p z ^ (2 : ℕ) * c / Hfun p z) ^ ((1 : ℝ) / 3)

/-- Method `BaseModel.DA_Gpc`: `self.Dc(z) * (1 / (1+z)) * (data.c / 1e5)`. -/
def DA_Gpc (p : Params) (z : ℝ) : ℝ := Dc p z * (1 / (1 + z)) * (c / 100000)

/-- Redshift-dependent matter fraction shared by both `fs8_model` methods:
`Om_z = self.Om / (a**3 * (self.H(z)/self.H0)**2)` with `a = 1/(1+z)`. -/
def OmZ (p : Params) (z : ℝ) : ℝ :=
  p.Om / ((1 / (1 + z)) ^ (3 : ℕ) * (Hfun p z / p.H0) ^ (2 : ℕ))

/-- Method `LCDM_Vectorized.fs8_model`:
`f_z = Om_z**0.55; D_z_approx = Om_z**(3/7); return f_z * D_z_approx * self.s8`. -/
def fs8_lcdm (H0 Om s8 z : ℝ) : ℝ :=
  OmZ (lcdmParams H0 Om) z ^ (0.55 : ℝ) * OmZ (lcdmParams H0 Om) z ^ ((3 : ℝ) / 7) * s8

/-- Method `DUT_Vectorized.fs8_model`:
`f_z = Om_z**0.52; D_z_approx = Om_z**(3/7); return f_z * D_z_approx * self.s8`. -/
def fs8_dut (H0 Om w0 wa xi s8 z : ℝ) : ℝ :=
  OmZ (dutParams H0 Om w0 wa xi) z ^ (0.52 : ℝ) *
    OmZ (dutParams H0 Om w0 wa xi) z ^ ((3 : ℝ) / 7) * s8

/-! ### Constructor failure and interpolator-domain behaviour

`BaseModel.__init__` performs no parameter validation of its own; the only
way it can raise is through scipy.  `PchipInterpolator` (via
`prepare_input`) raises `ValueError("y must contain only finite values.")`
when the comoving-distance table contains `inf`/`nan`, which over the reals
happens exactly when some `1/hz_grid[i]` is not a finite real: `hz_grid[i] =
H0*sqrt(radicand_i)` is `nan` when `radicand_i < 0` (float `sqrt` of a
negative) and `0` when `H0 = 0` or `radicand_i = 0` (making `1/hz` an
`inf`).  So construction succeeds iff `H0 ≠ 0` and every radicand is
strictly positive; no `Om`, `H0`, `s8` range check of any kind exists. -/

/-- Constructor error: scipy's `ValueError` for a non-finite data table. -/
inductive ConstructError where
  | nonFiniteTable : ConstructError
deriving DecidableEq

/-- Outcome of `BaseModel.__init__` (shared by `LCDM_Vectorized` and
`DUT_Vectorized`): the engine is its parameter record, and construction
fails only through the scipy finiteness check described above. -/
def construct (p : Params) : Except ConstructError Params :=
  if p.H0 ≠ 0 ∧ ∀ i, i ≤ 999 → 0 < radicand p (aGrid i) then Except.ok p
  else Except.error ConstructError.nonFiniteTable

/-- Interpolator-domain error type: scipy *can* signal out-of-domain
evaluation (`bounds_error`), but none of the three interpolators built by
`BaseModel.__init__` does. -/
inductive InterpError where
  | domain : InterpError
deriving DecidableEq

/-- Evaluation of `self.Dc_interp`: `PchipInterpolator` is constructed with
the default `extrapolate=None`, which `CubicHermiteSpline.__init__` replaces
by `True`, so every input — inside the grid or not — returns a value. -/
def DcEval (p : Params) (z : ℝ) : Except InterpError ℝ := Except.ok (Dc p z)

/-- Evaluation of `self.DL_interp` (same scipy default: extrapolates). -/
def DLEval (p : Params) (z : ℝ) : Except InterpError ℝ := Except.ok (DL p z)

/-- Evaluation of `self.Hz_interp`, built with `bounds_error=False,
fill_value="extrapolate"`: always returns a value. -/
def HEval (p : Params) (z : ℝ) : Except InterpError ℝ := Except.ok (Hfun p z)

/-! ### Spec-side definitions

These definitions transcribe the *specification's* formulas (not the code)
and are used to compare code against spec in refinement-style claims. -/

/-- Modelled from the spec: the BAO volume-averaged distance
`D_V(z) = [(1+z)²·DA(z)²·c·z / H(z)]^(1/3)` with `DA(z) = Dc(z)/(1+z)`,
built on the engine's interpolators. -/
def DVspec (p : Params) (z : ℝ) : ℝ :=
  ((1 + z) ^ (2 : ℕ) * (Dc p z / (1 + z)) ^ (2 : ℕ) * c * z / Hfun p z) ^ ((1 : ℝ) / 3)

/-- Modelled from the spec: the redshift-dependent matter fraction
`Ωm(z) = Ωm / (a³·(H(z)/H0)²)` with `a = 1/(1+z)`. -/
def OmZspec (Om H0 Hz z : ℝ) : ℝ := Om / ((1 / (1 + z)) ^ (3 : ℕ) * (Hz / H0) ^ (2 : ℕ))

/-- Modelled from the spec: the shared growth-rate formula
`fσ8(z) = Ωm(z)^γ · Ωm(z)^(3/7) · σ8` with a policy-selected growth index. -/
def fs8spec (gamma Om H0 s8 Hz z : ℝ) : ℝ :=
  OmZspec Om H0 Hz z ^ gamma * OmZspec Om H0 Hz z ^ ((3 : ℝ) / 7) * s8

/-! ## Theorems -/

/-! ### Grid facts -/

theorem logb_ten_five_pos : 0 < Real.logb 10 5 :=
  Real.logb_pos (by norm_num) (by norm_num)

theorem expStep_pos : 0 < expStep :=
  div_pos (by linarith [logb_ten_five_pos]) (by norm_num)

theorem zGrid_pos (i : ℕ) : 0 < zGrid i :=
  Real.rpow_pos_of_pos (by norm_num) _

theorem one_add_zGrid_pos (i : ℕ) : 0 < 1 + zGrid i := by
  linarith [zGrid_pos i]

theorem aGrid_pos (i : ℕ) : 0 < aGrid i :=
  div_pos one_pos (one_add_zGrid_pos i)

theorem zGrid_strictMono : StrictMono zGrid := by
  intro i j hij
  have h : ((-3 : ℝ) + i * expStep) < ((-3 : ℝ) + j * expStep) := by
    have : (i : ℝ) < (j : ℝ) := by exact_mod_cast hij
    nlinarith [expStep_pos]
  exact Real.rpow_lt_rpow_of_exponent_lt (by norm_num) h

theorem zGrid_zero : zGrid 0 = 1 / 1000 := by
  have : zGrid 0 = (10 : ℝ) ^ ((-3 : ℝ)) := by
    unfold zGrid; norm_num
  rw [this, show ((-3 : ℝ)) = ((-3 : ℤ) : ℝ) by norm_num, Real.rpow_intCast]
  norm_num

theorem gRatio_pos : 0 < gRatio := Real.rpow_pos_of_pos (by norm_num) _

theorem one_lt_gRatio : 1 < gRatio :=
  Real.one_lt_rpow_iff_of_pos (by norm_num) |>.mpr (Or.inl ⟨by norm_num, expStep_pos⟩)

/-- The 999-th power of the grid ratio is exactly 5000. -/
theorem gRatio_pow_999 : gRatio ^ (999 : ℕ) = 5000 := by
  have h10 : (0 : ℝ) < 10 := by norm_num
  have : gRatio ^ (999 : ℕ) = (10 : ℝ) ^ (expStep * 999) := by
    rw [gRatio, ← Real.rpow_natCast ((10 : ℝ) ^ expStep) 999, ← Real.rpow_mul (le_of_lt h10)]
    norm_num
  rw [this]
  have hstep : expStep * 999 = Real.logb 10 5 + 3 := by
    unfold expStep; field_simp
  rw [hstep, Real.rpow_add h10, Real.rpow_logb h10 (by norm_num) (by norm_num)]
  rw [show ((3 : ℝ)) = ((3 : ℕ) : ℝ) by norm_num, Real.rpow_natCast]
  norm_num

/-- Each grid point is the previous one multiplied by the fixed ratio. -/
theorem zGrid_succ (i : ℕ) : zGrid (i + 1) = zGrid i * gRatio := by
  unfold zGrid gRatio
  rw [← Real.rpow_add (by norm_num : (0:ℝ) < 10)]
  congr 1
  push_cast
  ring

theorem zGrid_last : zGrid 999 = 5 := by
  have h : zGrid 999 = zGrid 0 * gRatio ^ (999 : ℕ) := by
    unfold zGrid gRatio
    rw [← Real.rpow_natCast ((10 : ℝ) ^ expStep) 999, ← Real.rpow_mul (by norm_num : (0:ℝ) ≤ 10),
      ← Real.rpow_add (by norm_num : (0:ℝ) < 10)]
    congr 1
    push_cast
    ring
  rw [h, gRatio_pow_999, zGrid_zero]
  norm_num

theorem zGrid_lt_succ (i : ℕ) : zGrid i < zGrid (i + 1) :=
  zGrid_strictMono (Nat.lt_succ_self i)

theorem zStep_pos (i : ℕ) : 0 < zGrid (i + 1) - zGrid i :=
  sub_pos.mpr (zGrid_lt_succ i)

/-! ### Engine facts -/

/-- For `a > 0` the density factor is positive (`a**x > 0`). -/
theorem rhoDE_pos (p : Params) {a : ℝ} (ha : 0 < a) : 0 < rhoDE p a :=
  Real.rpow_pos_of_pos ha _

/-- With the interaction switched off and a pure cosmological constant
(`w0 = -1, wa = 0, xi = 0`) the exponent vanishes and `rho_DE(a) = a^0 = 1`. -/
theorem rhoDE_lcdm (H0 Om a : ℝ) : rhoDE (lcdmParams H0 Om) a = 1 := by
  unfold rhoDE wDE lcdmParams
  norm_num

/-- For `0 < Om < 1` the radicand is positive at every positive scale factor,
whatever `w0`, `wa`, `xi` are. -/
theorem radicand_pos_of_Om (p : Params) (hOm0 : 0 < p.Om) (hOm1 : p.Om < 1)
    {a : ℝ} (ha : 0 < a) : 0 < radicand p a := by
  unfold radicand
  have h1 : 0 < p.Om / a ^ (3 : ℕ) := div_pos hOm0 (by positivity)
  have h2 : 0 < (1 - p.Om) * rhoDE p a :=
    mul_pos (by linarith) (rhoDE_pos p ha)
  linarith

/-- Radicand of the baseline model, written in redshift:
`Om * (1+z)^3 + (1 - Om)`. -/
theorem radicand_lcdm (H0 Om : ℝ) (i : ℕ) :
    radicand (lcdmParams H0 Om) (aGrid i) = Om * (1 + zGrid i) ^ (3 : ℕ) + (1 - Om) := by
  unfold radicand aGrid
  rw [rhoDE_lcdm]
  have h : (1 + zGrid i) ≠ 0 := ne_of_gt (one_add_zGrid_pos i)
  have hOm : (lcdmParams H0 Om).Om = Om := rfl
  rw [hOm]
  field_simp

theorem hzNode_pos (p : Params) (hH0 : 0 < p.H0) (hOm0 : 0 < p.Om) (hOm1 : p.Om < 1)
    (i : ℕ) : 0 < hzNode p i :=
  mul_pos hH0 (Real.sqrt_pos.mpr (radicand_pos_of_Om p hOm0 hOm1 (aGrid_pos i)))

/-- The comoving-distance table starts at exactly 0. -/
theorem dcTable_zero (p : Params) : dcTable p 0 = 0 := rfl

/-- With positive Hubble rates the comoving-distance table is strictly
increasing step by step. -/
theorem dcTable_lt_succ (p : Params) (hH0 : 0 < p.H0) (hOm0 : 0 < p.Om)
    (hOm1 : p.Om < 1) (k : ℕ) : dcTable p k < dcTable p (k + 1) := by
  have h1 : 0 < 1 / hzNode p k := by
    have := hzNode_pos p hH0 hOm0 hOm1 k; positivity
  have h2 : 0 < 1 / hzNode p (k + 1) := by
    have := hzNode_pos p hH0 hOm0 hOm1 (k + 1); positivity
  have h3 := zStep_pos k
  show dcTable p k < dcTable p k + _
  have : 0 < (zGrid (k + 1) - zGrid k) * (1 / hzNode p k + 1 / hzNode p (k + 1)) / 2 := by
    positivity
  linarith

theorem dcTable_pos (p : Params) (hH0 : 0 < p.H0) (hOm0 : 0 < p.Om)
    (hOm1 : p.Om < 1) (k : ℕ) (hk : 0 < k) : 0 < dcTable p k := by
  induction k with
  | zero => exact absurd hk (lt_irrefl 0)
  | succ n ih =>
      rcases Nat.eq_zero_or_pos n with h0 | hpos
      · subst h0
        have := dcTable_lt_succ p hH0 hOm0 hOm1 0
        simpa [dcTable_zero] using this
      · exact lt_trans (ih hpos) (dcTable_lt_succ p hH0 hOm0 hOm1 n)

/-! ### Interval-location and node-evaluation facts -/

theorem findIdx_le (z : ℝ) (n : ℕ) : findIdx z n ≤ n := by
  induction n with
  | zero => simp [findIdx]
  | succ k ih =>
      unfold findIdx
      split
      · exact le_refl _
      · exact le_trans ih (Nat.le_succ k)

theorem findIdx_ge (z : ℝ) (n : ℕ) : ∀ j, j ≤ n → zGrid j ≤ z → j ≤ findIdx z n := by
  induction n with
  | zero =>
      intro j hj _
      simpa [findIdx] using hj
  | succ k ih =>
      intro j hj hz
      by_cases hcase : zGrid (k + 1) ≤ z
      · simpa [findIdx, hcase] using hj
      · have hjk : j ≤ k := by
          rcases Nat.lt_or_ge j (k + 1) with hlt | hge
          · exact Nat.lt_succ_iff.mp hlt
          · exact absurd (le_trans (zGrid_strictMono.monotone hge) hz) hcase
        simpa [findIdx, hcase] using ih j hjk hz

theorem findIdx_zero_or_le (z : ℝ) (n : ℕ) :
    findIdx z n = 0 ∨ zGrid (findIdx z n) ≤ z := by
  induction n with
  | zero => exact Or.inl rfl
  | succ k ih =>
      by_cases hcase : zGrid (k + 1) ≤ z
      · simp [findIdx, hcase]
      · simpa [findIdx, hcase] using ih

/-- At a breakpoint `zGrid k` with `k ≤ 998` the located piece is `k`. -/
theorem idx_node (k : ℕ) (hk : k ≤ 998) : idx (zGrid k) = k := by
  have h1 : k ≤ findIdx (zGrid k) 998 := findIdx_ge _ 998 k hk (le_refl _)
  rcases findIdx_zero_or_le (zGrid k) 998 with h0 | hle
  · unfold idx
    omega
  · have h2 : findIdx (zGrid k) 998 ≤ k := by
      by_contra hcon
      push_neg at hcon
      exact absurd hle (not_le.mpr (zGrid_strictMono hcon))
    exact le_antisymm h2 h1

/-- Below the whole grid (in particular at `z = 0`) the first piece is used. -/
theorem idx_of_nonpos (z : ℝ) (hz : z ≤ 0) : idx z = 0 := by
  rcases findIdx_zero_or_le z 998 with h0 | hle
  · exact h0
  · exact absurd hle (not_le.mpr (lt_of_le_of_lt hz (zGrid_pos _)))

/-- At or beyond the last breakpoint the last piece (998) is used. -/
theorem idx_of_ge_last (z : ℝ) (hz : zGrid 999 ≤ z) : idx z = 998 := by
  have h : zGrid 998 ≤ z := le_trans (le_of_lt (zGrid_lt_succ 998)) hz
  unfold idx findIdx
  simp [h]

/-- Linear interpolation reproduces the nodal values. -/
theorem linInterp_node (y : ℕ → ℝ) (k : ℕ) (hk : k ≤ 999) :
    linInterp y (zGrid k) = y k := by
  rcases Nat.lt_or_ge k 999 with hlt | hge
  · have hidx : idx (zGrid k) = k := idx_node k (by omega)
    unfold linInterp
    rw [hidx]
    simp
  · have hk999 : k = 999 := le_antisymm hk hge
    subst hk999
    have hidx : idx (zGrid 999) = 998 := idx_of_ge_last _ (le_refl _)
    unfold linInterp
    rw [hidx]
    have hne : zGrid 999 - zGrid 998 ≠ 0 := ne_of_gt (zStep_pos 998)
    field_simp

/-- Value of `H` at the grid nodes. -/
theorem Hfun_node (p : Params) (k : ℕ) (hk : k ≤ 999) :
    Hfun p (zGrid k) = hzNode p k :=
  linInterp_node (hzNode p) k hk

/-- Each cubic piece takes the left nodal value at its left breakpoint. -/
theorem pieceEval_left (y : ℕ → ℝ) (k : ℕ) : pieceEval y k (zGrid k) = y k := by
  unfold pieceEval
  simp

/-- Each cubic piece takes the right nodal value at its right breakpoint. -/
theorem pieceEval_right (y : ℕ → ℝ) (k : ℕ) : pieceEval y k (zGrid (k + 1)) = y (k + 1) := by
  unfold pieceEval mSlope
  have hne : hStep k ≠ 0 := ne_of_gt (by unfold hStep; exact zStep_pos k)
  have hz : zGrid (k + 1) - zGrid k = hStep k := rfl
  rw [hz]
  field_simp
  ring

/-- Pchip interpolation reproduces the nodal values. -/
theorem pchipInterp_node (y : ℕ → ℝ) (k : ℕ) (hk : k ≤ 999) :
    pchipInterp y (zGrid k) = y k := by
  rcases Nat.lt_or_ge k 999 with hlt | hge
  · unfold pchipInterp
    rw [idx_node k (by omega)]
    exact pieceEval_left y k
  · have hk999 : k = 999 := le_antisymm hk hge
    subst hk999
    unfold pchipInterp
    rw [idx_of_ge_last _ (le_refl _)]
    exact pieceEval_right y 998

theorem Dc_node (p : Params) (k : ℕ) (hk : k ≤ 999) : Dc p (zGrid k) = dcTable p k :=
  pchipInterp_node (dcTable p) k hk

theorem DL_node (p : Params) (k : ℕ) (hk : k ≤ 999) : DL p (zGrid k) = dlTable p k :=
  pchipInterp_node (dlTable p) k hk

/-! ### Rational bounds for the first grid steps

The grid ratio is `g = 5000^(1/999)`; comparing 999-th powers gives tight
rational bounds, which pin down `zGrid 1` and `zGrid 2`. -/

theorem gRatio_lb : (100848 / 100000 : ℝ) ≤ gRatio := by
  have h999 : ((100848 : ℝ) / 100000) ^ (999 : ℕ) ≤ gRatio ^ (999 : ℕ) := by
    rw [gRatio_pow_999, div_pow, div_le_iff (by positivity)]
    norm_num
  exact le_of_pow_le_pow_left (by norm_num) (le_of_lt gRatio_pos) h999

theorem gRatio_ub : gRatio ≤ 100866 / 100000 := by
  have h999 : gRatio ^ (999 : ℕ) ≤ ((100866 : ℝ) / 100000) ^ (999 : ℕ) := by
    rw [gRatio_pow_999, div_pow, le_div_iff (by positivity)]
    norm_num
  exact le_of_pow_le_pow_left (by norm_num) (by positivity) h999

theorem zGrid_one_eq : zGrid 1 = gRatio / 1000 := by
  have h := zGrid_succ 0
  rw [zGrid_zero] at h
  rw [h]
  ring

theorem zGrid_two_eq : zGrid 2 = gRatio ^ (2 : ℕ) / 1000 := by
  have h1 := zGrid_succ 1
  rw [zGrid_one_eq] at h1
  rw [h1]
  ring

theorem zGrid_one_bounds :
    (100848 / 100000000 : ℝ) ≤ zGrid 1 ∧ zGrid 1 ≤ 100866 / 100000000 := by
  rw [zGrid_one_eq]
  constructor
  · linarith [gRatio_lb]
  · linarith [gRatio_ub]

theorem zGrid_two_bounds :
    (100848 / 100000 : ℝ) ^ (2 : ℕ) / 1000 ≤ zGrid 2 ∧
      zGrid 2 ≤ (100866 / 100000 : ℝ) ^ (2 : ℕ) / 1000 := by
  rw [zGrid_two_eq]
  have hlb := gRatio_lb
  have hub := gRatio_ub
  have hg := gRatio_pos
  constructor
  · have : ((100848 : ℝ) / 100000) ^ (2 : ℕ) ≤ gRatio ^ (2 : ℕ) :=
      pow_le_pow_left (by norm_num) hlb 2
    linarith
  · have : gRatio ^ (2 : ℕ) ≤ ((100866 : ℝ) / 100000) ^ (2 : ℕ) :=
      pow_le_pow_left (le_of_lt hg) hub 2
    linarith

theorem hStep_zero_bounds :
    (848 / 100000000 : ℝ) ≤ hStep 0 ∧ hStep 0 ≤ 866 / 100000000 := by
  unfold hStep
  rw [zGrid_zero]
  have h := zGrid_one_bounds
  constructor
  · linarith [h.1]
  · linarith [h.2]

theorem hStepPos (k : ℕ) : 0 < hStep k := zStep_pos k

/-! ### Shape facts about the pchip derivative formulas -/

theorem sgn_of_pos {x : ℝ} (hx : 0 < x) : sgn x = 1 := by
  unfold sgn
  rw [if_pos hx]

theorem pos_of_sgn_eq {x y : ℝ} (h : sgn x = sgn y) (hy : 0 < y) : 0 < x := by
  rw [sgn_of_pos hy] at h
  unfold sgn at h
  by_contra hx
  push_neg at hx
  rcases lt_or_eq_of_le hx with hlt | heq
  · rw [if_neg (by linarith), if_pos hlt] at h
    norm_num at h
  · rw [if_neg (by linarith), if_neg (by linarith)] at h
    norm_num at h

/-- With positive data slopes and a positive raw estimate, the edge formula
returns the raw three-point estimate (no clipping branch fires). -/
theorem dEdge_eq_raw (h0 h1 m0 m1 : ℝ) (hm0 : 0 < m0) (hm1 : 0 < m1)
    (hraw : 0 < ((2 * h0 + h1) * m0 - h0 * m1) / (h0 + h1)) :
    dEdge h0 h1 m0 m1 = ((2 * h0 + h1) * m0 - h0 * m1) / (h0 + h1) := by
  unfold dEdge
  rw [if_neg, if_neg]
  · intro hcon
    exact hcon.1 (by rw [sgn_of_pos hm0, sgn_of_pos hm1])
  · intro hcon
    exact hcon (by rw [sgn_of_pos hraw, sgn_of_pos hm0])

/-- Bounds on the raw edge estimate when both slopes lie in `[L, U]`. -/
theorem raw_bounds (h0 h1 m0 m1 L U : ℝ) (hh0 : 0 < h0) (hh1 : 0 < h1)
    (hm0L : L ≤ m0) (hm0U : m0 ≤ U) (hm1L : L ≤ m1) (hm1U : m1 ≤ U) :
    L - (U - L) ≤ ((2 * h0 + h1) * m0 - h0 * m1) / (h0 + h1) ∧
      ((2 * h0 + h1) * m0 - h0 * m1) / (h0 + h1) ≤ U + (U - L) := by
  have hden : 0 < h0 + h1 := by linarith
  constructor
  · rw [le_div_iff hden]
    nlinarith [mul_nonneg hh0.le (sub_nonneg.mpr hm0L), mul_nonneg hh1.le (sub_nonneg.mpr hm0L),
      mul_nonneg hh0.le (sub_nonneg.mpr hm1U)]
  · rw [div_le_iff hden]
    nlinarith [mul_nonneg hh0.le (sub_nonneg.mpr hm0U), mul_nonneg hh1.le (sub_nonneg.mpr hm0U),
      mul_nonneg hh0.le (sub_nonneg.mpr hm1L)]

/-- The weighted harmonic mean of two slopes in `[L, U]` (with `0 < L`)
stays in `[L, U]`. -/
theorem harmonic_mem (a b m0 m1 L U : ℝ) (ha : 0 < a) (hb : 0 < b) (hL : 0 < L)
    (hm0L : L ≤ m0) (hm0U : m0 ≤ U) (hm1L : L ≤ m1) (hm1U : m1 ≤ U) :
    L ≤ (a + b) / (a / m0 + b / m1) ∧ (a + b) / (a / m0 + b / m1) ≤ U := by
  have hm0 : 0 < m0 := lt_of_lt_of_le hL hm0L
  have hm1 : 0 < m1 := lt_of_lt_of_le hL hm1L
  have hS : 0 < a / m0 + b / m1 := by positivity
  constructor
  · rw [le_div_iff hS]
    have e1 : L * (a / m0 + b / m1) = L * a / m0 + L * b / m1 := by ring
    rw [e1]
    have h1 : L * a / m0 ≤ a := by
      rw [div_le_iff hm0]
      nlinarith
    have h2 : L * b / m1 ≤ b := by
      rw [div_le_iff hm1]
      nlinarith
    linarith
  · rw [div_le_iff hS]
    have e1 : U * (a / m0 + b / m1) = U * a / m0 + U * b / m1 := by ring
    rw [e1]
    have h1 : a ≤ U * a / m0 := by
      rw [le_div_iff hm0]
      nlinarith
    have h2 : b ≤ U * b / m1 := by
      rw [le_div_iff hm1]
      nlinarith
    linarith

/-- With positive adjacent slopes the interior pchip derivative is the
weighted harmonic mean. -/
theorem dInterior_eq_pos (y : ℕ → ℝ) (k : ℕ) (hm1 : 0 < mSlope y k)
    (hm0 : 0 < mSlope y (k - 1)) :
    dInterior y k =
      (2 * hStep k + hStep (k - 1) + (hStep k + 2 * hStep (k - 1))) /
        ((2 * hStep k + hStep (k - 1)) / mSlope y (k - 1) +
          (hStep k + 2 * hStep (k - 1)) / mSlope y k) := by
  unfold dInterior
  rw [if_neg]
  push_neg
  exact ⟨by rw [sgn_of_pos hm1, sgn_of_pos hm0], ne_of_gt hm1, ne_of_gt hm0⟩

/-- The trapezoid structure of the comoving-distance table makes its data
slope over piece `k` the average of the two inverse Hubble rates. -/
theorem mSlope_dcTable (p : Params) (k : ℕ) :
    mSlope (dcTable p) k = (1 / hzNode p k + 1 / hzNode p (k + 1)) / 2 := by
  unfold mSlope
  have hy : dcTable p (k + 1) =
      dcTable p k + (zGrid (k + 1) - zGrid k) * (1 / hzNode p k + 1 / hzNode p (k + 1)) / 2 := rfl
  rw [hy]
  have hne : hStep k ≠ 0 := ne_of_gt (hStepPos k)
  have hz : zGrid (k + 1) - zGrid k = hStep k := rfl
  rw [hz]
  field_simp
  ring

/-! ### Monotonicity of the pchip interpolant (Fritsch–Carlson)

For strictly increasing data the pchip derivative at each node lies in
`[0, 3·m]` for the slopes `m` of both adjacent pieces, which puts each
Hermite piece inside the Fritsch–Carlson monotonicity box `[0,3]²` and makes
the whole interpolant monotone over the grid. -/

theorem mSlope_pos (y : ℕ → ℝ) (hy : ∀ j, j ≤ 998 → y j < y (j + 1)) (k : ℕ)
    (hk : k ≤ 998) : 0 < mSlope y k :=
  div_pos (sub_pos.mpr (hy k hk)) (hStepPos k)

/-- Edge derivative bounds: with positive steps and slopes the clipped edge
derivative lies in `[0, 3·m0]`. -/
theorem dEdge_bounds (h0 h1 m0 m1 : ℝ) (hh0 : 0 < h0) (hh1 : 0 < h1)
    (hm0 : 0 < m0) (hm1 : 0 < m1) :
    0 ≤ dEdge h0 h1 m0 m1 ∧ dEdge h0 h1 m0 m1 ≤ 3 * m0 := by
  unfold dEdge
  split_ifs with hc1 hc2
  · exact ⟨le_refl 0, by positivity⟩
  · exact ⟨by positivity, le_refl _⟩
  · push_neg at hc1
    have hrawpos : 0 < ((2 * h0 + h1) * m0 - h0 * m1) / (h0 + h1) := pos_of_sgn_eq hc1 hm0
    refine ⟨le_of_lt hrawpos, ?_⟩
    rw [div_le_iff (by linarith : (0:ℝ) < h0 + h1)]
    nlinarith [mul_pos hh0 hm1, mul_pos hh1 hm0, mul_pos hh0 hm0]

/-- Weighted-harmonic-mean bounds: with weights `b ≤ 2a`, `a ≤ 2b` (which
hold for the pchip weights) the interior derivative lies in
`(0, 3·min(m0, m1)]`. -/
theorem harmonic_le_three (a b m0 m1 : ℝ) (ha : 0 < a) (hb : 0 < b)
    (hm0 : 0 < m0) (hm1 : 0 < m1) (hba : b ≤ 2 * a) (hab : a ≤ 2 * b) :
    0 < (a + b) / (a / m0 + b / m1) ∧ (a + b) / (a / m0 + b / m1) ≤ 3 * m0 ∧
      (a + b) / (a / m0 + b / m1) ≤ 3 * m1 := by
  have hS : 0 < a / m0 + b / m1 := by positivity
  refine ⟨by positivity, ?_, ?_⟩
  · rw [div_le_iff hS]
    have hexp : 3 * m0 * (a / m0 + b / m1) = 3 * a + 3 * m0 * b / m1 := by
      field_simp
      ring
    rw [hexp]
    have hpos : 0 < 3 * m0 * b / m1 := by positivity
    linarith
  · rw [div_le_iff hS]
    have hexp : 3 * m1 * (a / m0 + b / m1) = 3 * a * m1 / m0 + 3 * b := by
      field_simp
      ring
    rw [hexp]
    have hpos : 0 < 3 * a * m1 / m0 := by positivity
    linarith

theorem pchipDeriv_nonneg (y : ℕ → ℝ) (hy : ∀ j, j ≤ 998 → y j < y (j + 1))
    (k : ℕ) (hk : k ≤ 999) : 0 ≤ pchipDeriv y k := by
  unfold pchipDeriv
  split_ifs with h0 h999
  · exact (dEdge_bounds _ _ _ _ (hStepPos 0) (hStepPos 1)
      (mSlope_pos y hy 0 (by norm_num)) (mSlope_pos y hy 1 (by norm_num))).1
  · exact (dEdge_bounds _ _ _ _ (hStepPos 998) (hStepPos 997)
      (mSlope_pos y hy 998 (by norm_num)) (mSlope_pos y hy 997 (by norm_num))).1
  · have hk1 : 1 ≤ k := Nat.one_le_iff_ne_zero.mpr h0
    have hk998 : k ≤ 998 := by omega
    have hm1 : 0 < mSlope y k := mSlope_pos y hy k hk998
    have hm0 : 0 < mSlope y (k - 1) := mSlope_pos y hy (k - 1) (by omega)
    rw [dInterior_eq_pos y k hm1 hm0]
    exact le_of_lt (harmonic_le_three _ _ _ _
      (by linarith [hStepPos k, hStepPos (k - 1)]) (by linarith [hStepPos k, hStepPos (k - 1)])
      hm0 hm1 (by linarith [hStepPos k]) (by linarith [hStepPos (k - 1)])).1

theorem pchipDeriv_le_right (y : ℕ → ℝ) (hy : ∀ j, j ≤ 998 → y j < y (j + 1))
    (k : ℕ) (hk : k ≤ 998) : pchipDeriv y k ≤ 3 * mSlope y k := by
  unfold pchipDeriv
  split_ifs with h0 h999
  · subst h0
    exact (dEdge_bounds _ _ _ _ (hStepPos 0) (hStepPos 1)
      (mSlope_pos y hy 0 (by norm_num)) (mSlope_pos y hy 1 (by norm_num))).2
  · omega
  · have hk1 : 1 ≤ k := Nat.one_le_iff_ne_zero.mpr h0
    have hm1 : 0 < mSlope y k := mSlope_pos y hy k hk
    have hm0 : 0 < mSlope y (k - 1) := mSlope_pos y hy (k - 1) (by omega)
    rw [dInterior_eq_pos y k hm1 hm0]
    exact (harmonic_le_three _ _ _ _
      (by linarith [hStepPos k, hStepPos (k - 1)]) (by linarith [hStepPos k, hStepPos (k - 1)])
      hm0 hm1 (by linarith [hStepPos k]) (by linarith [hStepPos (k - 1)])).2.2

theorem pchipDeriv_le_left (y : ℕ → ℝ) (hy : ∀ j, j ≤ 998 → y j < y (j + 1))
    (k : ℕ) (hk1 : 1 ≤ k) (hk : k ≤ 999) : pchipDeriv y k ≤ 3 * mSlope y (k - 1) := by
  unfold pchipDeriv
  split_ifs with h0 h999
  · omega
  · subst h999
    exact (dEdge_bounds _ _ _ _ (hStepPos 998) (hStepPos 997)
      (mSlope_pos y hy 998 (by norm_num)) (mSlope_pos y hy 997 (by norm_num))).2
  · have hk998 : k ≤ 998 := by omega
    have hm1 : 0 < mSlope y k := mSlope_pos y hy k hk998
    have hm0 : 0 < mSlope y (k - 1) := mSlope_pos y hy (k - 1) (by omega)
    rw [dInterior_eq_pos y k hm1 hm0]
    exact (harmonic_le_three _ _ _ _
      (by linarith [hStepPos k, hStepPos (k - 1)]) (by linarith [hStepPos k, hStepPos (k - 1)])
      hm0 hm1 (by linarith [hStepPos k]) (by linarith [hStepPos (k - 1)])).2.1

/-- Fritsch–Carlson core, pointwise form: inside the box `0 ≤ d0, d1 ≤ 3m`
the (rescaled) derivative of the Hermite cubic is non-negative on the piece. -/
theorem hermite_deriv_nonneg (h m d0 d1 s : ℝ) (hm : 0 < m)
    (hd00 : 0 ≤ d0) (hd03 : d0 ≤ 3 * m) (hd10 : 0 ≤ d1) (hd13 : d1 ≤ 3 * m)
    (hs0 : 0 ≤ s) (hsh : s ≤ h) :
    0 ≤ h ^ 2 * d0 + 2 * h * (3 * m - 2 * d0 - d1) * s + 3 * (d0 + d1 - 2 * m) * s ^ 2 := by
  rcases le_or_lt (d0 + d1) (3 * m) with hcase | hcase
  · nlinarith [mul_nonneg hd00 (sq_nonneg (h - s)), mul_nonneg hd10 (sq_nonneg s),
      mul_nonneg (mul_nonneg (by linarith : (0:ℝ) ≤ 6 * m - 2 * d0 - 2 * d1) hs0)
        (by linarith : (0:ℝ) ≤ h - s)]
  · have hd0pos : 0 < d0 := by
      rcases lt_or_eq_of_le hd00 with hlt | heq
      · exact hlt
      · exfalso
        rw [← heq] at hcase
        linarith
    have key : (d0 + d1 - 3 * m) ^ 2 ≤ d0 * d1 := by
      nlinarith [mul_nonneg (sub_nonneg.mpr hd03) (sub_nonneg.mpr hd13),
        mul_nonneg (le_of_lt (sub_pos.mpr hcase)) (by linarith : (0:ℝ) ≤ 6 * m - (d0 + d1))]
    have hident : d0 * (h ^ 2 * d0 + 2 * h * (3 * m - 2 * d0 - d1) * s +
        3 * (d0 + d1 - 2 * m) * s ^ 2) =
        (d0 * (h - s) - (d0 + d1 - 3 * m) * s) ^ 2 +
          s ^ 2 * (d0 * d1 - (d0 + d1 - 3 * m) ^ 2) := by
      ring
    have h2 : 0 ≤ d0 * (h ^ 2 * d0 + 2 * h * (3 * m - 2 * d0 - d1) * s +
        3 * (d0 + d1 - 2 * m) * s ^ 2) := by
      rw [hident]
      have ha := sq_nonneg (d0 * (h - s) - (d0 + d1 - 3 * m) * s)
      have hb : 0 ≤ s ^ 2 * (d0 * d1 - (d0 + d1 - 3 * m) ^ 2) :=
        mul_nonneg (sq_nonneg s) (by linarith)
      linarith
    by_contra hneg
    push_neg at hneg
    exact absurd h2 (not_le.mpr (mul_neg_of_pos_of_neg hd0pos hneg))

/-- Fritsch–Carlson core, integrated form: inside the box the Hermite cubic
piece is monotone (via the Simpson identity for the cubic increment). -/
theorem hermite_mono_on_piece (h m d0 d1 y0 s1 s2 : ℝ) (hh : 0 < h) (hm : 0 < m)
    (hd00 : 0 ≤ d0) (hd03 : d0 ≤ 3 * m) (hd10 : 0 ≤ d1) (hd13 : d1 ≤ 3 * m)
    (hs1 : 0 ≤ s1) (hs12 : s1 ≤ s2) (hs2 : s2 ≤ h) :
    y0 + d0 * s1 + ((3 * m - 2 * d0 - d1) / h) * s1 ^ 2 +
        ((d0 + d1 - 2 * m) / h ^ 2) * s1 ^ 3 ≤
      y0 + d0 * s2 + ((3 * m - 2 * d0 - d1) / h) * s2 ^ 2 +
        ((d0 + d1 - 2 * m) / h ^ 2) * s2 ^ 3 := by
  have e1 := hermite_deriv_nonneg h m d0 d1 s1 hm hd00 hd03 hd10 hd13 hs1 (by linarith)
  have e2 := hermite_deriv_nonneg h m d0 d1 ((s1 + s2) / 2) hm hd00 hd03 hd10 hd13
    (by linarith) (by linarith)
  have e3 := hermite_deriv_nonneg h m d0 d1 s2 hm hd00 hd03 hd10 hd13 (by linarith) hs2
  have hne : h ≠ 0 := ne_of_gt hh
  have hkey : (y0 + d0 * s2 + ((3 * m - 2 * d0 - d1) / h) * s2 ^ 2 +
        ((d0 + d1 - 2 * m) / h ^ 2) * s2 ^ 3) -
      (y0 + d0 * s1 + ((3 * m - 2 * d0 - d1) / h) * s1 ^ 2 +
        ((d0 + d1 - 2 * m) / h ^ 2) * s1 ^ 3) =
      (s2 - s1) *
        ((h ^ 2 * d0 + 2 * h * (3 * m - 2 * d0 - d1) * s1 + 3 * (d0 + d1 - 2 * m) * s1 ^ 2) +
          4 * (h ^ 2 * d0 + 2 * h * (3 * m - 2 * d0 - d1) * ((s1 + s2) / 2) +
            3 * (d0 + d1 - 2 * m) * ((s1 + s2) / 2) ^ 2) +
          (h ^ 2 * d0 + 2 * h * (3 * m - 2 * d0 - d1) * s2 + 3 * (d0 + d1 - 2 * m) * s2 ^ 2)) /
        (6 * h ^ 2) := by
    field_simp
    ring
  have hnn : 0 ≤ (s2 - s1) *
      ((h ^ 2 * d0 + 2 * h * (3 * m - 2 * d0 - d1) * s1 + 3 * (d0 + d1 - 2 * m) * s1 ^ 2) +
        4 * (h ^ 2 * d0 + 2 * h * (3 * m - 2 * d0 - d1) * ((s1 + s2) / 2) +
          3 * (d0 + d1 - 2 * m) * ((s1 + s2) / 2) ^ 2) +
        (h ^ 2 * d0 + 2 * h * (3 * m - 2 * d0 - d1) * s2 + 3 * (d0 + d1 - 2 * m) * s2 ^ 2)) /
      (6 * h ^ 2) := by
    apply div_nonneg
    · apply mul_nonneg (by linarith)
      linarith
    · positivity
  linarith

/-- Each pchip piece over strictly increasing data is monotone. -/
theorem pieceEval_mono (y : ℕ → ℝ) (hy : ∀ j, j ≤ 998 → y j < y (j + 1)) (k : ℕ)
    (hk : k ≤ 998) (z w : ℝ) (hz : zGrid k ≤ z) (hzw : z ≤ w) (hw : w ≤ zGrid (k + 1)) :
    pieceEval y k z ≤ pieceEval y k w := by
  have hm : 0 < mSlope y k := mSlope_pos y hy k hk
  have hd00 : 0 ≤ pchipDeriv y k := pchipDeriv_nonneg y hy k (by omega)
  have hd03 : pchipDeriv y k ≤ 3 * mSlope y k := pchipDeriv_le_right y hy k hk
  have hd10 : 0 ≤ pchipDeriv y (k + 1) := pchipDeriv_nonneg y hy (k + 1) (by omega)
  have hd13 : pchipDeriv y (k + 1) ≤ 3 * mSlope y k := by
    have := pchipDeriv_le_left y hy (k + 1) (by omega) (by omega)
    simpa using this
  have hstep : hStep k = zGrid (k + 1) - zGrid k := rfl
  exact hermite_mono_on_piece (hStep k) (mSlope y k) (pchipDeriv y k) (pchipDeriv y (k + 1))
    (y k) (z - zGrid k) (w - zGrid k) (hStepPos k) hm hd00 hd03 hd10 hd13
    (by linarith) (by linarith) (by rw [hstep]; linarith)

theorem table_mono (y : ℕ → ℝ) (hy : ∀ j, j ≤ 998 → y j < y (j + 1)) :
    ∀ a b, a ≤ b → b ≤ 999 → y a ≤ y b := by
  intro a b hab hb
  induction b with
  | zero =>
      have : a = 0 := Nat.le_zero.mp hab
      subst this
      exact le_refl _
  | succ n ih =>
      rcases Nat.lt_or_ge a (n + 1) with hlt | hge
      · have h1 : y a ≤ y n := ih (by omega) (by omega)
        have h2 : y n < y (n + 1) := hy n (by omega)
        linarith
      · have : a = n + 1 := by omega
        subst this
        exact le_refl _

theorem zGrid_idx_le (z : ℝ) (hz : zGrid 0 ≤ z) : zGrid (idx z) ≤ z := by
  rcases findIdx_zero_or_le z 998 with h0 | hle
  · have hidx : idx z = 0 := h0
    rw [hidx]
    exact hz
  · exact hle

theorem le_zGrid_idx_succ (z : ℝ) (hz : z ≤ zGrid 999) : z ≤ zGrid (idx z + 1) := by
  by_cases hcase : zGrid (idx z + 1) ≤ z
  · rcases Nat.lt_or_ge (idx z) 998 with hlt | hge
    · have hcontra : idx z + 1 ≤ findIdx z 998 := findIdx_ge z 998 (idx z + 1) (by omega) hcase
      have : findIdx z 998 = idx z := rfl
      omega
    · have h998 : idx z = 998 := le_antisymm (findIdx_le z 998) hge
      rw [h998]
      exact hz
  · linarith [not_le.mp hcase]

theorem idx_mono (z w : ℝ) (hz : zGrid 0 ≤ z) (hzw : z ≤ w) : idx z ≤ idx w :=
  findIdx_ge w 998 (idx z) (findIdx_le z 998) (le_trans (zGrid_idx_le z hz) hzw)

/-- The pchip interpolant of strictly increasing data is monotone over the
whole grid range. -/
theorem pchipInterp_mono (y : ℕ → ℝ) (hy : ∀ j, j ≤ 998 → y j < y (j + 1))
    (z w : ℝ) (hz : zGrid 0 ≤ z) (hzw : z ≤ w) (hw : w ≤ zGrid 999) :
    pchipInterp y z ≤ pchipInterp y w := by
  have hzMax : z ≤ zGrid 999 := le_trans hzw hw
  have hwMin : zGrid 0 ≤ w := le_trans hz hzw
  have hiz := zGrid_idx_le z hz
  have hiw := zGrid_idx_le w hwMin
  have hsz := le_zGrid_idx_succ z hzMax
  have hsw := le_zGrid_idx_succ w hw
  have hle := idx_mono z w hz hzw
  have hz998 : idx z ≤ 998 := findIdx_le z 998
  have hw998 : idx w ≤ 998 := findIdx_le w 998
  rcases eq_or_lt_of_le hle with heq | hlt
  · unfold pchipInterp
    rw [← heq]
    refine pieceEval_mono y hy (idx z) hz998 z w hiz hzw ?_
    rw [heq]
    exact hsw
  · have h1 : pieceEval y (idx z) z ≤ y (idx z + 1) := by
      have hmono := pieceEval_mono y hy (idx z) hz998 z (zGrid (idx z + 1)) hiz hsz (le_refl _)
      rwa [pieceEval_right] at hmono
    have h2 : y (idx z + 1) ≤ y (idx w) := table_mono y hy _ _ (by omega) (by omega)
    have h3 : y (idx w) ≤ pieceEval y (idx w) w := by
      have hmono := pieceEval_mono y hy (idx w) hw998 (zGrid (idx w)) w (le_refl _) hiw hsw
      rwa [pieceEval_left] at hmono
    unfold pchipInterp
    linarith

/-! ### Numeric facts for the engine `H0 = 1, Ωm = 1/2`

These pin down the first three inverse Hubble rates tightly enough to
control the pchip extrapolation of the comoving distance below the grid. -/

theorem cex_hzNode (i : ℕ) :
    hzNode (lcdmParams 1 (1 / 2)) i = Real.sqrt (((1 + zGrid i) ^ (3 : ℕ) + 1) / 2) := by
  unfold hzNode
  have hH0 : (lcdmParams 1 (1 / 2)).H0 = 1 := rfl
  rw [hH0, one_mul, radicand_lcdm]
  congr 1
  ring

theorem cex_R_ge_one (i : ℕ) : 1 ≤ ((1 + zGrid i) ^ (3 : ℕ) + 1) / 2 := by
  have hz := zGrid_pos i
  have h1 : (1 : ℝ) ≤ 1 + zGrid i := by linarith
  have hcube : (1 : ℝ) ≤ (1 + zGrid i) ^ (3 : ℕ) := by
    calc (1 : ℝ) = 1 ^ (3 : ℕ) := by norm_num
      _ ≤ (1 + zGrid i) ^ (3 : ℕ) := pow_le_pow_left (by norm_num) h1 3
  linarith

theorem cex_sqrt_ge_one (i : ℕ) :
    1 ≤ Real.sqrt (((1 + zGrid i) ^ (3 : ℕ) + 1) / 2) := by
  have h := Real.sqrt_le_sqrt (cex_R_ge_one i)
  rwa [Real.sqrt_one] at h

theorem cex_R_mono {i j : ℕ} (hij : i ≤ j) :
    ((1 + zGrid i) ^ (3 : ℕ) + 1) / 2 ≤ ((1 + zGrid j) ^ (3 : ℕ) + 1) / 2 := by
  have hz : zGrid i ≤ zGrid j := zGrid_strictMono.monotone hij
  have hcube : (1 + zGrid i) ^ (3 : ℕ) ≤ (1 + zGrid j) ^ (3 : ℕ) :=
    pow_le_pow_left (by linarith [zGrid_pos i]) (by linarith) 3
  linarith

theorem cex_invHz_antitone {i j : ℕ} (hij : i ≤ j) :
    1 / hzNode (lcdmParams 1 (1 / 2)) j ≤ 1 / hzNode (lcdmParams 1 (1 / 2)) i := by
  rw [cex_hzNode, cex_hzNode]
  have hsi := cex_sqrt_ge_one i
  have hsj := cex_sqrt_ge_one j
  apply one_div_le_one_div_of_le (by linarith)
  exact Real.sqrt_le_sqrt (cex_R_mono hij)

/-- Lower bound for the smallest of the first three inverse Hubble rates. -/
theorem cex_L_lb : (9992 / 10000 : ℝ) ≤ 1 / hzNode (lcdmParams 1 (1 / 2)) 2 := by
  rw [cex_hzNode]
  have hz2hi : zGrid 2 ≤ (100866 / 100000 : ℝ) ^ (2 : ℕ) / 1000 := zGrid_two_bounds.2
  have hcube : (1 + zGrid 2) ^ (3 : ℕ) ≤
      (1 + (100866 / 100000 : ℝ) ^ (2 : ℕ) / 1000) ^ (3 : ℕ) :=
    pow_le_pow_left (by linarith [zGrid_pos 2]) (by linarith) 3
  have hR2 : ((1 + zGrid 2) ^ (3 : ℕ) + 1) / 2 ≤ ((10008 : ℝ) / 10000) ^ (2 : ℕ) := by
    have hval : (1 + (100866 / 100000 : ℝ) ^ (2 : ℕ) / 1000) ^ (3 : ℕ) + 1 ≤
        2 * ((10008 : ℝ) / 10000) ^ (2 : ℕ) := by norm_num
    linarith
  have hs : Real.sqrt (((1 + zGrid 2) ^ (3 : ℕ) + 1) / 2) ≤ 10008 / 10000 := by
    have h1 := Real.sqrt_le_sqrt hR2
    rwa [Real.sqrt_sq (by norm_num : (0:ℝ) ≤ 10008 / 10000)] at h1
  have hpos : 0 < Real.sqrt (((1 + zGrid 2) ^ (3 : ℕ) + 1) / 2) := by
    linarith [cex_sqrt_ge_one 2]
  rw [le_div_iff hpos]
  nlinarith [hs]

/-- Upper bound for the spread of the first three inverse Hubble rates. -/
theorem cex_delta_ub :
    1 / hzNode (lcdmParams 1 (1 / 2)) 0 - 1 / hzNode (lcdmParams 1 (1 / 2)) 2 ≤
      131 / 10000000 := by
  rw [cex_hzNode, cex_hzNode]
  have hR0nn : (0:ℝ) ≤ ((1 + zGrid 0) ^ (3 : ℕ) + 1) / 2 := by linarith [cex_R_ge_one 0]
  have hR2nn : (0:ℝ) ≤ ((1 + zGrid 2) ^ (3 : ℕ) + 1) / 2 := by linarith [cex_R_ge_one 2]
  have hs0 := cex_sqrt_ge_one 0
  have hs2 := cex_sqrt_ge_one 2
  have hmono : Real.sqrt (((1 + zGrid 0) ^ (3 : ℕ) + 1) / 2) ≤
      Real.sqrt (((1 + zGrid 2) ^ (3 : ℕ) + 1) / 2) :=
    Real.sqrt_le_sqrt (cex_R_mono (by norm_num))
  set s0 := Real.sqrt (((1 + zGrid 0) ^ (3 : ℕ) + 1) / 2) with hs0def
  set s2 := Real.sqrt (((1 + zGrid 2) ^ (3 : ℕ) + 1) / 2) with hs2def
  have hfrac : 1 / s0 - 1 / s2 = (s2 - s0) / (s0 * s2) := by
    field_simp
  have hden : 1 ≤ s0 * s2 := by nlinarith
  have hstep1 : (s2 - s0) / (s0 * s2) ≤ s2 - s0 :=
    div_le_self (by linarith) hden
  have hsq0 : s0 ^ 2 = ((1 + zGrid 0) ^ (3 : ℕ) + 1) / 2 := Real.sq_sqrt hR0nn
  have hsq2 : s2 ^ 2 = ((1 + zGrid 2) ^ (3 : ℕ) + 1) / 2 := Real.sq_sqrt hR2nn
  have hdiffR : ((1 + zGrid 2) ^ (3 : ℕ) + 1) / 2 - ((1 + zGrid 0) ^ (3 : ℕ) + 1) / 2 ≤
      262 / 10000000 := by
    have hz2hi : zGrid 2 ≤ (100866 / 100000 : ℝ) ^ (2 : ℕ) / 1000 := zGrid_two_bounds.2
    have hcube : (1 + zGrid 2) ^ (3 : ℕ) ≤
        (1 + (100866 / 100000 : ℝ) ^ (2 : ℕ) / 1000) ^ (3 : ℕ) :=
      pow_le_pow_left (by linarith [zGrid_pos 2]) (by linarith) 3
    rw [zGrid_zero]
    have hval : (1 + (100866 / 100000 : ℝ) ^ (2 : ℕ) / 1000) ^ (3 : ℕ) -
        (1 + 1 / 1000) ^ (3 : ℕ) ≤ 524 / 10000000 := by norm_num
    linarith
  have hstep2 : s2 - s0 ≤ 131 / 10000000 := by
    nlinarith [hsq0, hsq2, hdiffR, hmono, hs0, hs2,
      mul_nonneg (sub_nonneg.mpr hmono) (by linarith : (0:ℝ) ≤ s0 + s2 - 2)]
  rw [hfrac]
  linarith

/-- Below the grid the pchip extrapolation of the comoving distance is
strictly negative at `z = 0` for the valid engine `H0 = 1, Ωm = 1/2`: the
extrapolated cubic leaves the anchor `Dc(z₀) = 0` with positive slope
`≈ 1/H(z₀)`, so stepping the `≈ 117` interval-widths down to `0` lands at
`≈ -z₀/H(z₀) < 0`. -/
theorem cex_Dc_neg : Dc (lcdmParams 1 (1 / 2)) 0 < 0 := by
  set q := lcdmParams 1 (1 / 2) with hq
  set y : ℕ → ℝ := dcTable q with hy
  set f0 := 1 / hzNode q 0 with hf0
  set f1 := 1 / hzNode q 1 with hf1
  set f2 := 1 / hzNode q 2 with hf2
  have hL : (9992 / 10000 : ℝ) ≤ f2 := cex_L_lb
  have hDub : f0 - f2 ≤ 131 / 10000000 := cex_delta_ub
  have h21 : f2 ≤ f1 := cex_invHz_antitone (by norm_num)
  have h10 : f1 ≤ f0 := cex_invHz_antitone (by norm_num)
  have hDnn : 0 ≤ f0 - f2 := by linarith
  have hm0 : mSlope y 0 = (f0 + f1) / 2 := mSlope_dcTable q 0
  have hm1 : mSlope y 1 = (f1 + f2) / 2 := mSlope_dcTable q 1
  have hm0L : f2 ≤ mSlope y 0 := by rw [hm0]; linarith
  have hm0U : mSlope y 0 ≤ f0 := by rw [hm0]; linarith
  have hm1L : f2 ≤ mSlope y 1 := by rw [hm1]; linarith
  have hm1U : mSlope y 1 ≤ f0 := by rw [hm1]; linarith
  have hm0pos : 0 < mSlope y 0 := by linarith
  have hm1pos : 0 < mSlope y 1 := by linarith
  -- the interior derivative at node 1 lies between the extreme slopes
  have hd1eq : pchipDeriv y 1 =
      (2 * hStep 1 + hStep 0 + (hStep 1 + 2 * hStep 0)) /
        ((2 * hStep 1 + hStep 0) / mSlope y 0 + (hStep 1 + 2 * hStep 0) / mSlope y 1) := by
    unfold pchipDeriv
    rw [if_neg (by norm_num), if_neg (by norm_num)]
    have h := dInterior_eq_pos y 1 hm1pos (by norm_num; exact hm0pos)
    simpa using h
  have hd1mem := harmonic_mem (2 * hStep 1 + hStep 0) (hStep 1 + 2 * hStep 0)
    (mSlope y 0) (mSlope y 1) f2 f0
    (by linarith [hStepPos 0, hStepPos 1]) (by linarith [hStepPos 0, hStepPos 1])
    (by linarith) hm0L hm0U hm1L hm1U
  have hd1L : f2 ≤ pchipDeriv y 1 := by rw [hd1eq]; exact hd1mem.1
  have hd1U : pchipDeriv y 1 ≤ f0 := by rw [hd1eq]; exact hd1mem.2
  -- the edge derivative at node 0 is the raw three-point estimate
  have hraw := raw_bounds (hStep 0) (hStep 1) (mSlope y 0) (mSlope y 1) f2 f0
    (hStepPos 0) (hStepPos 1) hm0L hm0U hm1L hm1U
  have hrawpos : 0 < ((2 * hStep 0 + hStep 1) * mSlope y 0 - hStep 0 * mSlope y 1) /
      (hStep 0 + hStep 1) := by
    have := hraw.1
    linarith
  have hd0eq : pchipDeriv y 0 =
      ((2 * hStep 0 + hStep 1) * mSlope y 0 - hStep 0 * mSlope y 1) / (hStep 0 + hStep 1) := by
    unfold pchipDeriv
    rw [if_pos rfl]
    exact dEdge_eq_raw _ _ _ _ hm0pos hm1pos hrawpos
  have hd0L : f2 - (f0 - f2) ≤ pchipDeriv y 0 := by rw [hd0eq]; exact hraw.1
  have hd0U : pchipDeriv y 0 ≤ f0 + (f0 - f2) := by rw [hd0eq]; exact hraw.2
  -- evaluate the first piece at z = 0 and bound it
  have hidx : idx (0 : ℝ) = 0 := idx_of_nonpos 0 (le_refl 0)
  have hDc : Dc q 0 = pieceEval y 0 0 := by
    unfold Dc pchipInterp
    rw [hidx]
  rw [hDc]
  unfold pieceEval
  have hy0 : y 0 = 0 := by rw [hy]; exact dcTable_zero q
  rw [hy0, zGrid_zero]
  have hh0 : (848 / 100000000 : ℝ) ≤ hStep 0 := hStep_zero_bounds.1
  have hh0pos : 0 < hStep 0 := hStepPos 0
  set d0 := pchipDeriv y 0 with hd0
  set d1 := pchipDeriv y 1 with hd1
  set m := mSlope y 0 with hm
  set h0 := hStep 0 with hh0def
  have hA : 3 * m - 2 * d0 - d1 ≤ 5 * (f0 - f2) := by linarith
  have hB : -(3 * (f0 - f2)) ≤ d0 + d1 - 2 * m := by linarith
  clear_value d0 d1 m h0 f0 f1 f2 y q
  have hkey : 5 * (f0 - f2) * h0 * (1 / 1000) + 3 * (f0 - f2) * (1 / 1000) ^ 2 <
      (f2 - (f0 - f2)) * h0 ^ 2 := by
    nlinarith [sq_nonneg (h0 - 848 / 100000000),
      mul_nonneg (by linarith : (0:ℝ) ≤ f2 - (f0 - f2) - 9991869 / 10000000) (sq_nonneg h0),
      mul_nonneg (by linarith : (0:ℝ) ≤ 131 / 10000000 - (f0 - f2)) (le_of_lt hh0pos)]
  have hG : 0 + d0 * (0 - 1 / 1000) + ((3 * m - 2 * d0 - d1) / h0) * (0 - 1 / 1000) ^ 2 +
      ((d0 + d1 - 2 * m) / h0 ^ 2) * (0 - 1 / 1000) ^ 3 =
      (-(d0 * h0 ^ 2 * (1 / 1000)) + (3 * m - 2 * d0 - d1) * h0 * (1 / 1000) ^ 2 -
        (d0 + d1 - 2 * m) * (1 / 1000) ^ 3) / h0 ^ 2 := by
    field_simp
    ring
  rw [hG]
  apply div_neg_of_neg_of_pos
  · linarith [hkey, mul_nonneg (by linarith : (0:ℝ) ≤ d0 - (f2 - (f0 - f2))) (sq_nonneg h0),
      mul_nonneg (by linarith : (0:ℝ) ≤ 5 * (f0 - f2) - (3 * m - 2 * d0 - d1))
        (le_of_lt hh0pos)]
  · exact pow_pos hh0pos 2

/-! ### Numeric facts for the baseline engine `H0 = 67.8, Ωm = 0.315` at `z = 0`

`H(0)` is the linear extrapolation of the first grid segment, i.e. the
secant of the strictly convex `H` through the first two nodes; it therefore
falls strictly below `H0`, but only by a few times `1e-5`. -/

set_option maxHeartbeats 2000000 in
/-- Core inequality, stated over abstract square roots `s0 = sqrt R(z₀)`,
`s1 = sqrt R(z₁)` so that only polynomial arithmetic is involved. -/
theorem cex6_core (z1 s0 s1 : ℝ)
    (hz1lo : (100848 / 100000000 : ℝ) ≤ z1) (hz1hi : z1 ≤ 100866 / 100000000)
    (hs0 : 1 ≤ s0) (hs1 : 1 ≤ s1)
    (hs0sq : s0 ^ 2 = 0.315 * (1 + (1 / 1000 : ℝ)) ^ (3 : ℕ) + 0.685)
    (hs1sq : s1 ^ 2 = 0.315 * (1 + z1) ^ (3 : ℕ) + 0.685) :
    (67.8 * s0 * z1 - 67.8 * s1 * (1 / 1000)) / (z1 - 1 / 1000) < 67.8 ∧
      67.8 - (67.8 * s0 * z1 - 67.8 * s1 * (1 / 1000)) / (z1 - 1 / 1000) < 1 / 1000 := by
  have hden : (0 : ℝ) < z1 - 1 / 1000 := by
    have : (848 / 100000000 : ℝ) ≤ z1 - 1 / 1000 := by linarith
    linarith
  -- rational bounds for the square roots
  have hs0lo : (100047286 / 100000000 : ℝ) ≤ s0 := by
    nlinarith [hs0sq, hs0, sq_nonneg (s0 - 100047286 / 100000000)]
  have hs0hi : s0 ≤ 100047287 / 100000000 := by
    nlinarith [hs0sq, hs0, sq_nonneg (s0 + 100047287 / 100000000)]
  have hcube_lo : (1 + (100848 / 100000000 : ℝ)) ^ (3 : ℕ) ≤ (1 + z1) ^ (3 : ℕ) :=
    pow_le_pow_left (by norm_num) (by linarith) 3
  have hcube_hi : (1 + z1) ^ (3 : ℕ) ≤ (1 + (100866 / 100000000 : ℝ)) ^ (3 : ℕ) :=
    pow_le_pow_left (by linarith) (by linarith) 3
  have hs1lo : (10004766 / 10000000 : ℝ) ≤ s1 := by
    nlinarith [hs1sq, hs1, hcube_lo, sq_nonneg (s1 - 10004766 / 10000000)]
  have hs1hi : s1 ≤ 100047696 / 100000000 := by
    nlinarith [hs1sq, hs1, hcube_hi, sq_nonneg (s1 + 100047696 / 100000000)]
  -- the bracket `P1·(s0+1) - P0·(s1+1)` is positive but tiny
  have hP1lo : 3 + 3 * (100848 / 100000000 : ℝ) + (100848 / 100000000 : ℝ) ^ 2 ≤
      3 + 3 * z1 + z1 ^ 2 := by
    nlinarith [hz1lo]
  have hP1hi : 3 + 3 * z1 + z1 ^ 2 ≤
      3 + 3 * (100866 / 100000000 : ℝ) + (100866 / 100000000 : ℝ) ^ 2 := by
    nlinarith [hz1hi, hz1lo]
  have hbr_pos : (3 + 3 * (1 / 1000 : ℝ) + (1 / 1000 : ℝ) ^ 2) * (s1 + 1) <
      (3 + 3 * z1 + z1 ^ 2) * (s0 + 1) := by
    have hA1 : (3 + 3 * (1 / 1000 : ℝ) + (1 / 1000 : ℝ) ^ 2) * (s1 + 1) ≤
        (3 + 3 * (1 / 1000 : ℝ) + (1 / 1000 : ℝ) ^ 2) * (100047696 / 100000000 + 1) := by
      nlinarith [hs1hi]
    have hA2 : (3 + 3 * (100848 / 100000000 : ℝ) + (100848 / 100000000 : ℝ) ^ 2) *
        (100047286 / 100000000 + 1) ≤ (3 + 3 * z1 + z1 ^ 2) * (s0 + 1) := by
      nlinarith [hP1lo, hs0lo,
        mul_nonneg (sub_nonneg.mpr hP1lo) (by linarith : (0:ℝ) ≤ s0 + 1)]
    have hA3 : (3 + 3 * (1 / 1000 : ℝ) + (1 / 1000 : ℝ) ^ 2) *
        (100047696 / 100000000 + 1) <
        (3 + 3 * (100848 / 100000000 : ℝ) + (100848 / 100000000 : ℝ) ^ 2) *
          (100047286 / 100000000 + 1) := by norm_num
    linarith
  have hbr_ub : (3 + 3 * z1 + z1 ^ 2) * (s0 + 1) -
      (3 + 3 * (1 / 1000 : ℝ) + (1 / 1000 : ℝ) ^ 2) * (s1 + 1) ≤ 41 / 1000000 := by
    have hB1 : (3 + 3 * z1 + z1 ^ 2) * (s0 + 1) ≤
        (3 + 3 * (100866 / 100000000 : ℝ) + (100866 / 100000000 : ℝ) ^ 2) *
          (100047287 / 100000000 + 1) :=
      mul_le_mul hP1hi (by linarith) (by linarith) (by norm_num)
    have hB2 : (3 + 3 * (1 / 1000 : ℝ) + (1 / 1000 : ℝ) ^ 2) * (10004766 / 10000000 + 1) ≤
        (3 + 3 * (1 / 1000 : ℝ) + (1 / 1000 : ℝ) ^ 2) * (s1 + 1) := by
      nlinarith [hs1lo]
    have hB3 : (3 + 3 * (100866 / 100000000 : ℝ) + (100866 / 100000000 : ℝ) ^ 2) *
        (100047287 / 100000000 + 1) -
        (3 + 3 * (1 / 1000 : ℝ) + (1 / 1000 : ℝ) ^ 2) * (10004766 / 10000000 + 1) ≤
        41 / 1000000 := by norm_num
    linarith
  -- the extrapolation deficit `X`
  have hS : (0 : ℝ) < (s0 + 1) * (s1 + 1) := by nlinarith [hs0, hs1]
  have hS4 : (4 : ℝ) ≤ (s0 + 1) * (s1 + 1) := by nlinarith [hs0, hs1]
  have hXid : ((z1 - 1 / 1000) - (s0 * z1 - s1 * (1 / 1000))) * ((s0 + 1) * (s1 + 1)) =
      (0.315 * z1 / 1000) * ((3 + 3 * z1 + z1 ^ 2) * (s0 + 1) -
        (3 + 3 * (1 / 1000 : ℝ) + (1 / 1000 : ℝ) ^ 2) * (s1 + 1)) := by
    linear_combination ((s0 + 1) / 1000) * hs1sq - z1 * (s1 + 1) * hs0sq
  have hfac_pos : (0 : ℝ) < 0.315 * z1 / 1000 := by
    have : (0 : ℝ) < z1 := by linarith
    positivity
  have hXS_pos : 0 < ((z1 - 1 / 1000) - (s0 * z1 - s1 * (1 / 1000))) * ((s0 + 1) * (s1 + 1)) := by
    rw [hXid]
    exact mul_pos hfac_pos (sub_pos.mpr hbr_pos)
  have hXpos : 0 < (z1 - 1 / 1000) - (s0 * z1 - s1 * (1 / 1000)) := by
    by_contra hcon
    push_neg at hcon
    exact absurd hXS_pos (not_lt.mpr (mul_nonpos_of_nonpos_of_nonneg hcon (le_of_lt hS)))
  have hXS_ub : ((z1 - 1 / 1000) - (s0 * z1 - s1 * (1 / 1000))) * ((s0 + 1) * (s1 + 1)) ≤
      (0.315 * (100866 / 100000000) / 1000) * (41 / 1000000) := by
    rw [hXid]
    have hfac_ub : (0.315 * z1 / 1000 : ℝ) ≤ 0.315 * (100866 / 100000000) / 1000 := by
      linarith
    exact mul_le_mul hfac_ub hbr_ub (by linarith [hbr_pos]) (by norm_num)
  have hXub : (z1 - 1 / 1000) - (s0 * z1 - s1 * (1 / 1000)) ≤ 33 / 10000000000000 := by
    have h4X : ((z1 - 1 / 1000) - (s0 * z1 - s1 * (1 / 1000))) * 4 ≤
        ((z1 - 1 / 1000) - (s0 * z1 - s1 * (1 / 1000))) * ((s0 + 1) * (s1 + 1)) :=
      mul_le_mul_of_nonneg_left hS4 (le_of_lt hXpos)
    nlinarith [h4X, hXS_ub]
  constructor
  · rw [div_lt_iff hden]
    linarith
  · have hgap : 67.8 - (67.8 * s0 * z1 - 67.8 * s1 * (1 / 1000)) / (z1 - 1 / 1000) =
        67.8 * ((z1 - 1 / 1000) - (s0 * z1 - s1 * (1 / 1000))) / (z1 - 1 / 1000) := by
      have hne : z1 - 1 / 1000 ≠ 0 := ne_of_gt hden
      rw [eq_div_iff hne, sub_mul, div_mul_cancel₀ _ hne]
      ring
    rw [hgap]
    have hbound : 67.8 * ((z1 - 1 / 1000) - (s0 * z1 - s1 * (1 / 1000))) / (z1 - 1 / 1000) ≤
        67.8 * (33 / 10000000000000) / (848 / 100000000) := by
      apply div_le_div (by norm_num) (by linarith) (by norm_num) (by linarith)
    calc 67.8 * ((z1 - 1 / 1000) - (s0 * z1 - s1 * (1 / 1000))) / (z1 - 1 / 1000) ≤
        67.8 * (33 / 10000000000000) / (848 / 100000000) := hbound
      _ < 1 / 1000 := by norm_num

/-- Hubble-rate node values of the baseline best-fit engine. -/
theorem hzNode_base (i : ℕ) :
    hzNode (lcdmParams 67.8 0.315) i =
      67.8 * Real.sqrt (0.315 * (1 + zGrid i) ^ (3 : ℕ) + 0.685) := by
  unfold hzNode
  have h1 : (lcdmParams 67.8 0.315).H0 = 67.8 := rfl
  rw [h1, radicand_lcdm]
  norm_num

/-- The `H` evaluation of the baseline engine at `z = 0` is the secant
extrapolation of the first grid segment, which falls strictly below `H0`
(the secant of a strictly convex function run below its chord), though by
less than `1e-3`. -/
theorem hfun_base_zero_lt :
    Hfun (lcdmParams 67.8 0.315) 0 < 67.8 ∧
      67.8 - Hfun (lcdmParams 67.8 0.315) 0 < 1 / 1000 := by
  have hidx : idx (0 : ℝ) = 0 := idx_of_nonpos 0 (le_refl 0)
  have hz1b := zGrid_one_bounds
  have hz1pos : 0 < zGrid 1 := zGrid_pos 1
  set z1 := zGrid 1 with hz1def
  have hR0nn : (0 : ℝ) ≤ 0.315 * (1 + (1 / 1000 : ℝ)) ^ (3 : ℕ) + 0.685 := by norm_num
  have hR1nn : (0 : ℝ) ≤ 0.315 * (1 + z1) ^ (3 : ℕ) + 0.685 := by positivity
  set s0 := Real.sqrt (0.315 * (1 + (1 / 1000 : ℝ)) ^ (3 : ℕ) + 0.685) with hs0def
  set s1 := Real.sqrt (0.315 * (1 + z1) ^ (3 : ℕ) + 0.685) with hs1def
  have hs0sq : s0 ^ 2 = 0.315 * (1 + (1 / 1000 : ℝ)) ^ (3 : ℕ) + 0.685 := Real.sq_sqrt hR0nn
  have hs1sq : s1 ^ 2 = 0.315 * (1 + z1) ^ (3 : ℕ) + 0.685 := Real.sq_sqrt hR1nn
  have hs0ge : 1 ≤ s0 := by
    rw [hs0def, show (1 : ℝ) = Real.sqrt 1 from Real.sqrt_one.symm]
    exact Real.sqrt_le_sqrt (by norm_num)
  have hs1ge : 1 ≤ s1 := by
    rw [hs1def]
    have hcube : (1 : ℝ) ≤ (1 + z1) ^ (3 : ℕ) := by
      calc (1 : ℝ) = 1 ^ (3 : ℕ) := by norm_num
        _ ≤ (1 + z1) ^ (3 : ℕ) := pow_le_pow_left (by norm_num) (by linarith) 3
    have h1 : Real.sqrt 1 ≤ Real.sqrt (0.315 * (1 + z1) ^ (3 : ℕ) + 0.685) :=
      Real.sqrt_le_sqrt (by nlinarith)
    rwa [Real.sqrt_one] at h1
  have hne : z1 - 1 / 1000 ≠ 0 := by
    have : (100848 / 100000000 : ℝ) ≤ z1 := hz1b.1
    intro hcon
    nlinarith
  have hH : Hfun (lcdmParams 67.8 0.315) 0 =
      (67.8 * s0 * z1 - 67.8 * s1 * (1 / 1000)) / (z1 - 1 / 1000) := by
    unfold Hfun linInterp
    rw [hidx, hzNode_base 0, hzNode_base 1, zGrid_zero, ← hz1def, ← hs0def, ← hs1def]
    rw [eq_div_iff hne, add_mul, div_mul_cancel₀ _ hne]
    ring
  rw [hH]
  exact cex6_core z1 s0 s1 hz1b.1 hz1b.2 hs0ge hs1ge hs0sq hs1sq

/-! ### Claim C5 (comoving-distance table and interpolant) -/

/-- Claim C5, counterexample: for the valid parameters `H0 = 1, Ωm = 1/2`
(and any `σ8 ≥ 0`) the interpolated `Dc(0)` is **not** exactly 0: `z = 0`
lies below the first grid point `z₀ = 10⁻³`, so `Dc(0)` is the pchip
extrapolation of the first cubic piece, which is strictly negative. -/
theorem C5_counterexample :
    0 < (1 : ℝ) ∧ 0 < (1 / 2 : ℝ) ∧ (1 / 2 : ℝ) < 1 ∧
      Dc (lcdmParams 1 (1 / 2)) 0 ≠ 0 :=
  ⟨by norm_num, by norm_num, by norm_num, ne_of_lt cex_Dc_neg⟩

/-- Claim C5, amended: for every valid parameter combination the cumulative
trapezoid table starts at exactly 0 and is strictly increasing; the
interpolated `Dc` is exactly 0 at the first grid point `z₀ = 10⁻³` (not at
`z = 0`, which lies below the grid), and the pchip interpolant is
non-decreasing across the whole grid range `[z₀, 5]`. -/
theorem C5_amended (p : Params) (hH0 : 0 < p.H0) (hOm0 : 0 < p.Om) (hOm1 : p.Om < 1) :
    dcTable p 0 = 0 ∧
      (∀ k, k ≤ 998 → dcTable p k < dcTable p (k + 1)) ∧
      Dc p (zGrid 0) = 0 ∧
      (∀ z w, zGrid 0 ≤ z → z ≤ w → w ≤ zGrid 999 → Dc p z ≤ Dc p w) := by
  refine ⟨dcTable_zero p, ?_, ?_, ?_⟩
  · intro k _
    exact dcTable_lt_succ p hH0 hOm0 hOm1 k
  · rw [Dc_node p 0 (by norm_num)]
    exact dcTable_zero p
  · intro z w hz hzw hw
    exact pchipInterp_mono (dcTable p) (fun j _ => dcTable_lt_succ p hH0 hOm0 hOm1 j)
      z w hz hzw hw

/-- Claim C5 witness: the amended claim instantiated at the baseline
best-fit engine `H0 = 67.8, Ωm = 0.315`. -/
theorem C5_witness :
    dcTable (lcdmParams 67.8 0.315) 0 = 0 ∧
      (∀ k, k ≤ 998 →
        dcTable (lcdmParams 67.8 0.315) k < dcTable (lcdmParams 67.8 0.315) (k + 1)) ∧
      Dc (lcdmParams 67.8 0.315) (zGrid 0) = 0 ∧
      (∀ z w, zGrid 0 ≤ z → z ≤ w → w ≤ zGrid 999 →
        Dc (lcdmParams 67.8 0.315) z ≤ Dc (lcdmParams 67.8 0.315) w) :=
  C5_amended (lcdmParams 67.8 0.315) (by norm_num : (0:ℝ) < 67.8)
    (by norm_num : (0:ℝ) < 0.315) (by norm_num : (0.315:ℝ) < 1)

/-! ### Claim C6 (the Hubble rate at `z = 0`) -/

/-- Claim C6, counterexample: for the baseline `H0 = 67.8, Ωm = 0.315`,
`H(0)` is **not** exactly 67.8: `z = 0` lies below the grid, so `H(0)` is
the linear extrapolation of the first segment — the secant of the strictly
convex `H`, which lies strictly below `H(z) = H0·sqrt(...)` at `z = 0`. -/
theorem C6_counterexample : Hfun (lcdmParams 67.8 0.315) 0 ≠ 67.8 :=
  ne_of_lt hfun_base_zero_lt.1

/-- Claim C6, amended: for the baseline engine, `H(0)` is strictly less
than `H0 = 67.8` (by less than `10⁻³`), rather than exactly equal to it. -/
theorem C6_amended :
    Hfun (lcdmParams 67.8 0.315) 0 < 67.8 ∧
      67.8 - Hfun (lcdmParams 67.8 0.315) 0 < 1 / 1000 :=
  hfun_base_zero_lt

/-! ### Claim C1 (error handling at construction) -/

/-- Claim C1, counterexample: for `Ωm = 1.5` (with the baseline `H0 = 67.8`,
via `LCDM_Vectorized`) engine construction does **not** fail: the radicand
`1.5·(1+z)³ - 0.5` is positive at every grid point, the distance table is
finite, and the constructor returns a normal engine.  No `InvalidParameters`
check exists anywhere in `BaseModel.__init__`. -/
theorem C1_counterexample :
    construct (lcdmParams 67.8 1.5) = Except.ok (lcdmParams 67.8 1.5) := by
  unfold construct
  rw [if_pos]
  constructor
  · show (67.8 : ℝ) ≠ 0
    norm_num
  · intro i _
    rw [radicand_lcdm]
    have hz := zGrid_pos i
    have h1 : (1 : ℝ) ≤ 1 + zGrid i := by linarith
    have hcube : (1 : ℝ) ≤ (1 + zGrid i) ^ (3 : ℕ) := by
      calc (1 : ℝ) = 1 ^ (3 : ℕ) := by norm_num
        _ ≤ (1 + zGrid i) ^ (3 : ℕ) := by
            apply pow_le_pow_left (by norm_num) h1
    nlinarith

/-- Claim C1, amended: engine construction validates nothing; it can only
fail through scipy's finiteness check, i.e. it returns the engine exactly
when `H0 ≠ 0` and the Hubble-rate radicand is strictly positive at every
grid point, and otherwise raises scipy's `ValueError` — never an
`InvalidParameters` error, and `Ωm ∉ (0,1)`, `H0 < 0` or `σ8 < 0` by
themselves never prevent construction. -/
theorem C1_amended (p : Params) :
    (construct p = Except.ok p ∨ construct p = Except.error ConstructError.nonFiniteTable) ∧
    (construct p = Except.ok p ↔ p.H0 ≠ 0 ∧ ∀ i, i ≤ 999 → 0 < radicand p (aGrid i)) := by
  unfold construct
  by_cases h : p.H0 ≠ 0 ∧ ∀ i, i ≤ 999 → 0 < radicand p (aGrid i)
  · rw [if_pos h]
    exact ⟨Or.inl rfl, iff_of_true rfl h⟩
  · rw [if_neg h]
    refine ⟨Or.inr rfl, ?_, fun hcond => absurd hcond h⟩
    intro hcon
    exact absurd hcon (by simp)

/-! ### Claim C2 (the BAO volume-distance formula) -/

/-- Claim C2: the code's `DV` disagrees with the claimed formula
`D_V(z) = [(1+z)²·DA(z)²·c·z / H(z)]^(1/3)`.  At the failing input `z = 5`
(a grid point, with the baseline best-fit engine `H0=67.8, Ωm=0.315`) the
code evaluates `((1+z)·Dc²·c/H)^(1/3)` — using `1+z` where the documented
formula (also written out in `main.py`: `D_V = [(1+z)^2*D_A^2*cz/H]^(1/3)`)
has `z` — so the two values differ by the factor `(6/5)^(1/3)`. -/
theorem C2_code_bug :
    DV (lcdmParams 67.8 0.315) 5 =
      ((1 + 5) * Dc (lcdmParams 67.8 0.315) 5 ^ (2 : ℕ) * c / Hfun (lcdmParams 67.8 0.315) 5) ^
        ((1 : ℝ) / 3) ∧
    DVspec (lcdmParams 67.8 0.315) 5 =
      (Dc (lcdmParams 67.8 0.315) 5 ^ (2 : ℕ) * c * 5 / Hfun (lcdmParams 67.8 0.315) 5) ^
        ((1 : ℝ) / 3) ∧
    DVspec (lcdmParams 67.8 0.315) 5 < DV (lcdmParams 67.8 0.315) 5 := by
  have h5 : (5 : ℝ) = zGrid 999 := zGrid_last.symm
  have hOm0 : (0 : ℝ) < 0.315 := by norm_num
  have hOm1 : (0.315 : ℝ) < 1 := by norm_num
  have hH0 : (0 : ℝ) < 67.8 := by norm_num
  have hDc : 0 < Dc (lcdmParams 67.8 0.315) 5 := by
    rw [h5, Dc_node _ 999 (le_refl _)]
    exact dcTable_pos _ hH0 hOm0 hOm1 999 (by norm_num)
  have hH : 0 < Hfun (lcdmParams 67.8 0.315) 5 := by
    rw [h5, Hfun_node _ 999 (le_refl _)]
    exact hzNode_pos _ hH0 hOm0 hOm1 999
  have hc : (0 : ℝ) < c := by unfold c; norm_num
  refine ⟨rfl, ?_, ?_⟩
  · unfold DVspec
    congr 1
    field_simp
  · unfold DVspec DV
    have hbase : (1 + 5 : ℝ) ^ (2 : ℕ) * (Dc (lcdmParams 67.8 0.315) 5 / (1 + 5)) ^ (2 : ℕ) *
        c * 5 / Hfun (lcdmParams 67.8 0.315) 5 =
        Dc (lcdmParams 67.8 0.315) 5 ^ (2 : ℕ) * c * 5 / Hfun (lcdmParams 67.8 0.315) 5 := by
      field_simp
    rw [hbase]
    apply Real.rpow_lt_rpow
    · positivity
    · rw [div_lt_div_iff hH hH]
      nlinarith [mul_pos (mul_pos (mul_pos (pow_pos hDc 2) hc) hH) hH,
        mul_pos (mul_pos (pow_pos hDc 2) hc) hH]
    · norm_num

/-! ### Claim C3 (luminosity distance vs comoving distance) -/

/-- Claim C3, counterexample: at the second grid point `z₁` of the baseline
best-fit engine, `DL(z₁)` is **not** within `1e-9` relative tolerance of
`(1+z₁)·c·Dc(z₁)`: the code's `DL` table carries an extra factor `1/1e5`,
so the relative deviation is `1 - 1e-5`, not `≤ 1e-9`. -/
theorem C3_counterexample :
    ¬ (|DL (lcdmParams 67.8 0.315) (zGrid 1) -
          (1 + zGrid 1) * c * Dc (lcdmParams 67.8 0.315) (zGrid 1)| ≤
        (1 / 1000000000) * |(1 + zGrid 1) * c * Dc (lcdmParams 67.8 0.315) (zGrid 1)|) := by
  have hDL : DL (lcdmParams 67.8 0.315) (zGrid 1) = dlTable (lcdmParams 67.8 0.315) 1 :=
    DL_node _ 1 (by norm_num)
  have hDc : Dc (lcdmParams 67.8 0.315) (zGrid 1) = dcTable (lcdmParams 67.8 0.315) 1 :=
    Dc_node _ 1 (by norm_num)
  have hH0 : (0 : ℝ) < 67.8 := by norm_num
  have hOm0 : (0 : ℝ) < 0.315 := by norm_num
  have hOm1 : (0.315 : ℝ) < 1 := by norm_num
  have hpos : 0 < dcTable (lcdmParams 67.8 0.315) 1 :=
    dcTable_pos _ hH0 hOm0 hOm1 1 (by norm_num)
  have hc : (0 : ℝ) < c := by unfold c; norm_num
  have hz1 : 0 < 1 + zGrid 1 := one_add_zGrid_pos 1
  rw [hDL, hDc]
  unfold dlTable
  set X := (1 + zGrid 1) * c * dcTable (lcdmParams 67.8 0.315) 1 with hX
  have hXpos : 0 < X := by
    rw [hX]
    positivity
  have h1 : X / 100000 - X = -(99999 / 100000) * X := by ring
  rw [h1, abs_of_pos hXpos]
  rw [abs_of_neg (by nlinarith : -(99999 / 100000 : ℝ) * X < 0)]
  intro hcon
  nlinarith

/-- Claim C3, amended: at every grid point the luminosity distance equals
`(1+z)·c·Dc(z)/1e5` exactly (the code scales the `DL` table by `1/1e5`). -/
theorem C3_amended (p : Params) (k : ℕ) (hk : k ≤ 999) :
    DL p (zGrid k) = (1 + zGrid k) * c * Dc p (zGrid k) / 100000 := by
  rw [DL_node p k hk, Dc_node p k hk]
  rfl

/-- Claim C3 witness: the amended identity at the first grid point of the
baseline best-fit engine. -/
theorem C3_witness :
    (0 : ℕ) ≤ 999 ∧
      DL (lcdmParams 67.8 0.315) (zGrid 0) =
        (1 + zGrid 0) * c * Dc (lcdmParams 67.8 0.315) (zGrid 0) / 100000 :=
  ⟨by norm_num, C3_amended (lcdmParams 67.8 0.315) 0 (by norm_num)⟩

/-! ### Claim C4 (extrapolation vs domain errors) -/

/-- Claim C4, counterexample: at `z = 6`, strictly above the grid upper bound
`zGrid 999 = 5`, none of the three interpolators fails with a domain error —
`Dc`, `DL` and `H` all return (extrapolated) values. -/
theorem C4_counterexample :
    zGrid 999 = 5 ∧ (zGrid 999 : ℝ) < 6 ∧
      DcEval (lcdmParams 67.8 0.315) 6 = Except.ok (Dc (lcdmParams 67.8 0.315) 6) ∧
      DLEval (lcdmParams 67.8 0.315) 6 = Except.ok (DL (lcdmParams 67.8 0.315) 6) ∧
      HEval (lcdmParams 67.8 0.315) 6 = Except.ok (Hfun (lcdmParams 67.8 0.315) 6) :=
  ⟨zGrid_last, by rw [zGrid_last]; norm_num, rfl, rfl, rfl⟩

/-- Claim C4, amended: the grid bounds are `[1/1000, 5]`, but **all three**
interpolators allow extrapolation: the two distance interpolators use
scipy's `PchipInterpolator` default `extrapolate=True` (evaluating the
boundary cubic outside the grid) and the Hubble-rate `interp1d` is built
with `fill_value="extrapolate"`; evaluation never produces a domain error at
any redshift. -/
theorem C4_amended (p : Params) (z : ℝ) :
    zGrid 0 = 1 / 1000 ∧ zGrid 999 = 5 ∧
      DcEval p z = Except.ok (Dc p z) ∧
      DLEval p z = Except.ok (DL p z) ∧
      HEval p z = Except.ok (Hfun p z) :=
  ⟨zGrid_zero, zGrid_last, rfl, rfl, rfl⟩

/-! ### Claim C7 (monotonicity of the baseline Hubble rate) -/

/-- Claim C7: for every `Ωm ∈ (0,1)` and `H0 > 0`, the baseline engine's
Hubble rate is monotonically non-decreasing across adjacent grid points. -/
theorem C7_theorem (H0 Om : ℝ) (hOm0 : 0 < Om) (hOm1 : Om < 1) (hH0 : 0 < H0)
    (i : ℕ) (hi : i < 999) :
    Hfun (lcdmParams H0 Om) (zGrid i) ≤ Hfun (lcdmParams H0 Om) (zGrid (i + 1)) := by
  rw [Hfun_node _ i (by omega), Hfun_node _ (i + 1) (by omega)]
  unfold hzNode
  have hH0' : (lcdmParams H0 Om).H0 = H0 := rfl
  rw [hH0']
  apply mul_le_mul_of_nonneg_left _ (le_of_lt hH0)
  apply Real.sqrt_le_sqrt
  rw [radicand_lcdm, radicand_lcdm]
  have hz : zGrid i ≤ zGrid (i + 1) := le_of_lt (zGrid_lt_succ i)
  have hcube : (1 + zGrid i) ^ (3 : ℕ) ≤ (1 + zGrid (i + 1)) ^ (3 : ℕ) := by
    apply pow_le_pow_left (le_of_lt (one_add_zGrid_pos i))
    linarith
  nlinarith

/-- Claim C7 witness: instantiated at `H0 = 70`, `Ωm = 1/2`, grid step 0. -/
theorem C7_witness :
    0 < (1 / 2 : ℝ) ∧ (1 / 2 : ℝ) < 1 ∧ 0 < (70 : ℝ) ∧ (0 : ℕ) < 999 ∧
      Hfun (lcdmParams 70 (1 / 2)) (zGrid 0) ≤ Hfun (lcdmParams 70 (1 / 2)) (zGrid 1) :=
  ⟨by norm_num, by norm_num, by norm_num, by norm_num,
    C7_theorem 70 (1 / 2) (by norm_num) (by norm_num) (by norm_num) 0 (by norm_num)⟩

/-! ### Claim C8 (the growth-rate formula) -/

/-- Claim C8: both `fs8_model` methods compute the spec's shared formula
`fσ8(z) = Ωm(z)^γ · Ωm(z)^(3/7) · σ8` with
`Ωm(z) = Ωm / (a³·(H(z)/H0)²)`, `a = 1/(1+z)`, where the baseline
(`LCDM_Vectorized`) uses `γ = 0.55` and the interacting (`DUT_Vectorized`)
uses `γ = 0.52`. -/
theorem C8_theorem (H0 Om w0 wa xi s8 z : ℝ) :
    fs8_lcdm H0 Om s8 z =
      fs8spec 0.55 Om H0 s8 (Hfun (lcdmParams H0 Om) z) z ∧
    fs8_dut H0 Om w0 wa xi s8 z =
      fs8spec 0.52 Om H0 s8 (Hfun (dutParams H0 Om w0 wa xi) z) z := by
  constructor
  · unfold fs8_lcdm fs8spec OmZ OmZspec lcdmParams
    rfl
  · unfold fs8_dut fs8spec OmZ OmZspec dutParams
    rfl

/-! ### Claim C9 (`ξ = 0` recovers the baseline engine) -/

/-- Claim C9: the interacting engine constructed with `w0 = -1, wa = 0,
ξ = 0` coincides with the baseline engine built from the same `H0`, `Ωm`:
same parameter record, same density factor, same Hubble-rate grid, same
comoving-distance table, and identical `H`, `Dc`, `DL`, `μ`, `D_V` at every
redshift. -/
theorem C9_theorem (H0 Om a z : ℝ) (i k : ℕ) :
    dutParams H0 Om (-1) 0 0 = lcdmParams H0 Om ∧
    rhoDE (dutParams H0 Om (-1) 0 0) a = rhoDE (lcdmParams H0 Om) a ∧
    hzNode (dutParams H0 Om (-1) 0 0) i = hzNode (lcdmParams H0 Om) i ∧
    dcTable (dutParams H0 Om (-1) 0 0) k = dcTable (lcdmParams H0 Om) k ∧
    Hfun (dutParams H0 Om (-1) 0 0) z = Hfun (lcdmParams H0 Om) z ∧
    Dc (dutParams H0 Om (-1) 0 0) z = Dc (lcdmParams H0 Om) z ∧
    DL (dutParams H0 Om (-1) 0 0) z = DL (lcdmParams H0 Om) z ∧
    mu (dutParams H0 Om (-1) 0 0) z = mu (lcdmParams H0 Om) z ∧
    DV (dutParams H0 Om (-1) 0 0) z = DV (lcdmParams H0 Om) z :=
  ⟨rfl, rfl, rfl, rfl, rfl, rfl, rfl, rfl, rfl⟩

/-! ### Claim C10 (the distance modulus at the grid anchor) -/

/-- Claim C10: for every engine, the luminosity distance at the first grid
point `z₀ = 10⁻³` is exactly 0 (the cumulative table is anchored there), so
`μ(z₀) = 5·log10(DL) + 25` is `-inf` — not a finite number — and in general
`μ(z)` is a finite number exactly when `DL(z) > 0`. -/
theorem C10_theorem (p : Params) (z : ℝ) :
    zGrid 0 = 1 / 1000 ∧ DL p (zGrid 0) = 0 ∧ mu p (zGrid 0) = FVal.neginf ∧
      ((∃ r, mu p z = FVal.fin r) ↔ 0 < DL p z) := by
  have hDL0 : DL p (zGrid 0) = 0 := by
    rw [DL_node p 0 (by norm_num)]
    unfold dlTable
    rw [dcTable_zero]
    ring
  refine ⟨zGrid_zero, hDL0, ?_, ?_⟩
  · unfold mu log10F
    rw [hDL0]
    norm_num
  · constructor
    · rintro ⟨r, hr⟩
      by_contra hnot
      push_neg at hnot
      rcases lt_or_eq_of_le hnot with hlt | heq
      · unfold mu log10F at hr
        rw [if_neg (by linarith), if_neg (ne_of_lt hlt)] at hr
        exact FVal.noConfusion hr
      · unfold mu log10F at hr
        rw [if_neg (by linarith), if_pos heq] at hr
        exact FVal.noConfusion hr
    · intro hpos
      refine ⟨5 * Real.logb 10 (DL p z) + 25, ?_⟩
      unfold mu log10F
      rw [if_pos hpos]

end Ninja

